import Mathlib

/-!
Verification of `ibm_think_to_epub.py` (IBM Think guide → EPUB converter).

This file gives a shallow embedding, in Lean, of the content-normalization
pipeline of the converter (image downloading and naming, link rewriting,
structural HTML sanitation, TOC filtering, the page-processing loop, and
chapter creation), and proves or refutes the specified properties about it.

HTML documents are modelled as rose trees of element/text nodes; the
external collaborators (the HTTP transport, `urllib.parse.urljoin`) are
modelled as explicit function parameters; `hashlib.md5` is implemented
bit-for-bit over byte lists.
-/

namespace IbmThink

/-- Substring test on character lists (Python's `in` operator on `str`). -/
def listIsSub (needle : List Char) : List Char → Bool
  | [] => needle.isEmpty
  | c :: t => needle.isPrefixOf (c :: t) || listIsSub needle t

/-- `isSub needle hay` is Python's `needle in hay` for strings. -/
def isSub (needle hay : String) : Bool := listIsSub needle.data hay.data

/-! ## MD5 (`hashlib.md5(...).hexdigest()`), over byte lists -/

/-- 32-bit left rotation on naturals below `2 ^ 32`. -/
def rotl32 (x n : Nat) : Nat := (x * 2 ^ n + x / 2 ^ (32 - n)) % 2 ^ 32

/-- The 64 MD5 sine-derived constants (RFC 1321). -/
def md5K : List Nat :=
  [0xd76aa478, 0xe8c7b756, 0x242070db, 0xc1bdceee,
   0xf57c0faf, 0x4787c62a, 0xa8304613, 0xfd469501,
   0x698098d8, 0x8b44f7af, 0xffff5bb1, 0x895cd7be,
   0x6b901122, 0xfd987193, 0xa679438e, 0x49b40821,
   0xf61e2562, 0xc040b340, 0x265e5a51, 0xe9b6c7aa,
   0xd62f105d, 0x02441453, 0xd8a1e681, 0xe7d3fbc8,
   0x21e1cde6, 0xc33707d6, 0xf4d50d87, 0x455a14ed,
   0xa9e3e905, 0xfcefa3f8, 0x676f02d9, 0x8d2a4c8a,
   0xfffa3942, 0x8771f681, 0x6d9d6122, 0xfde5380c,
   0xa4beea44, 0x4bdecfa9, 0xf6bb4b60, 0xbebfbc70,
   0x289b7ec6, 0xeaa127fa, 0xd4ef3085, 0x04881d05,
   0xd9d4d039, 0xe6db99e5, 0x1fa27cf8, 0xc4ac5665,
   0xf4292244, 0x432aff97, 0xab9423a7, 0xfc93a039,
   0x655b59c3, 0x8f0ccc92, 0xffeff47d, 0x85845dd1,
   0x6fa87e4f, 0xfe2ce6e0, 0xa3014314, 0x4e0811a1,
   0xf7537e82, 0xbd3af235, 0x2ad7d2bb, 0xeb86d391]

/-- The MD5 per-round shift amounts. -/
def md5S : List Nat :=
  [7, 12, 17, 22, 7, 12, 17, 22, 7, 12, 17, 22, 7, 12, 17, 22,
   5, 9, 14, 20, 5, 9, 14, 20, 5, 9, 14, 20, 5, 9, 14, 20,
   4, 11, 16, 23, 4, 11, 16, 23, 4, 11, 16, 23, 4, 11, 16, 23,
   6, 10, 15, 21, 6, 10, 15, 21, 6, 10, 15, 21, 6, 10, 15, 21]

/-- The MD5 nonlinear round function. -/
def md5F (i b c d : Nat) : Nat :=
  if i < 16 then (b &&& c) ||| ((0xffffffff ^^^ b) &&& d)
  else if i < 32 then (d &&& b) ||| ((0xffffffff ^^^ d) &&& c)
  else if i < 48 then b ^^^ c ^^^ d
  else c ^^^ (b ||| (0xffffffff ^^^ d))

/-- The MD5 message-word index schedule. -/
def md5G (i : Nat) : Nat :=
  if i < 16 then i
  else if i < 32 then (5 * i + 1) % 16
  else if i < 48 then (3 * i + 5) % 16
  else (7 * i) % 16

/-- One MD5 round on the running state `(a, b, c, d)`. -/
def md5Round (M : List Nat) (i : Nat) : Nat × Nat × Nat × Nat → Nat × Nat × Nat × Nat :=
  fun st =>
    let f := (md5F i st.2.1 st.2.2.1 st.2.2.2 + st.1 + md5K.getD i 0 +
              M.getD (md5G i) 0) % 2 ^ 32
    (st.2.2.2, (st.2.1 + rotl32 f (md5S.getD i 0)) % 2 ^ 32, st.2.1, st.2.2.1)

/-- Process one 16-word chunk. -/
def md5Chunk (st : Nat × Nat × Nat × Nat) (M : List Nat) : Nat × Nat × Nat × Nat :=
  let r := (List.range 64).foldl (fun s i => md5Round M i s) st
  ((st.1 + r.1) % 2 ^ 32, (st.2.1 + r.2.1) % 2 ^ 32,
   (st.2.2.1 + r.2.2.1) % 2 ^ 32, (st.2.2.2 + r.2.2.2) % 2 ^ 32)

/-- Group a byte list into little-endian 32-bit words. -/
def toWords : List Nat → List Nat
  | b0 :: b1 :: b2 :: b3 :: r =>
    (b0 + 256 * b1 + 65536 * b2 + 16777216 * b3) :: toWords r
  | _ => []

/-- `leBytes n k` is the `k`-byte little-endian encoding of `n` (truncating). -/
def leBytes (n : Nat) : Nat → List Nat
  | 0 => []
  | k + 1 => n % 256 :: leBytes (n / 256) k

/-- Split a byte list into 64-byte chunks (`k` is fuel, at least the list length). -/
def chunksAux : Nat → List Nat → List (List Nat)
  | 0, _ => []
  | _, [] => []
  | k + 1, b :: r => ((b :: r).take 64) :: chunksAux k ((b :: r).drop 64)

/-- Split a byte list into 64-byte chunks. -/
def chunks64 (l : List Nat) : List (List Nat) := chunksAux l.length l

/-- MD5 padding: `0x80`, zeros to 56 mod 64, then the 8-byte bit length. -/
def md5Pad (msg : List Nat) : List Nat :=
  let padZeros := (56 + 64 - (msg.length + 1) % 64) % 64
  msg ++ [0x80] ++ List.replicate padZeros 0 ++ leBytes (8 * msg.length) 8

/-- The 16-byte MD5 digest of a byte list. -/
def md5Bytes (msg : List Nat) : List Nat :=
  let st := (chunks64 (md5Pad msg)).foldl (fun s ch => md5Chunk s (toWords ch))
    (0x67452301, 0xefcdab89, 0x98badcfe, 0x10325476)
  leBytes st.1 4 ++ leBytes st.2.1 4 ++ leBytes st.2.2.1 4 ++ leBytes st.2.2.2 4

/-- Lowercase hex digit. -/
def hexDigit (n : Nat) : Char := if n < 10 then Char.ofNat (48 + n) else Char.ofNat (87 + n)

/-- Two lowercase hex digits of a byte. -/
def byteHex (b : Nat) : List Char := [hexDigit (b / 16), hexDigit (b % 16)]

/-- `md5hex msg` is Python's `hashlib.md5(msg).hexdigest()`. -/
def md5hex (msg : List Nat) : String := ⟨(md5Bytes msg).flatMap byteHex⟩

/-- UTF-8 encoding of one character, as bytes. -/
def utf8Char (c : Char) : List Nat :=
  let n := c.toNat
  if n < 0x80 then [n]
  else if n < 0x800 then [0xc0 + n / 64, 0x80 + n % 64]
  else if n < 0x10000 then [0xe0 + n / 4096, 0x80 + n / 64 % 64, 0x80 + n % 64]
  else [0xf0 + n / 262144, 0x80 + n / 4096 % 64, 0x80 + n / 64 % 64, 0x80 + n % 64]

/-- UTF-8 encoding of a string (Python's `str.encode()`). -/
def utf8Encode (s : String) : List Nat := s.data.flatMap utf8Char

/-! ## Small string helpers (Python string methods) -/

/-- Python's `str.startswith`. -/
def strStarts (p s : String) : Bool := p.data.isPrefixOf s.data

/-- Python's `str.endswith`. -/
def strEnds (p s : String) : Bool := p.data.isSuffixOf s.data

/-- Python's `str.strip()` (ASCII whitespace). -/
def pyStrip (s : String) : String :=
  ⟨((s.data.dropWhile Char.isWhitespace).reverse.dropWhile Char.isWhitespace).reverse⟩

/-- Association-list lookup (Python `dict` read access / `in` test). -/
def alistFind {α : Type} (m : List (String × α)) (k : String) : Option α :=
  (m.find? (fun kv => kv.1 == k)).map (fun kv => kv.2)

/-- Association-list write `m[k] = v` (Python `dict` assignment: update in
place if the key exists, else append at the end). -/
def alistSet {α : Type} : List (String × α) → String → α → List (String × α)
  | [], k, v => [(k, v)]
  | kv :: t, k, v => if kv.1 = k then (k, v) :: t else kv :: alistSet t k v

/-! ## Extension / media-type inference (`IBMThinkScraper.download_image`)

Lines 234–253 of `ibm_think_to_epub.py`: a chain of `if`/`elif` branches,
one per recognized image type, in the fixed order jpeg, png, gif, svg,
webp; each branch fires when the response content-type contains the type's
media string *or* the URL ends with one of the type's extensions; if no
branch fires the result defaults to JPEG. -/

/-- The extension and media type `download_image` infers from the response
content-type header and the image URL. -/
def inferExtMedia (content_type img_url : String) : String × String :=
  if isSub "image/jpeg" content_type || strEnds ".jpg" img_url || strEnds ".jpeg" img_url then
    ("jpg", "image/jpeg")
  else if isSub "image/png" content_type || strEnds ".png" img_url then
    ("png", "image/png")
  else if isSub "image/gif" content_type || strEnds ".gif" img_url then
    ("gif", "image/gif")
  else if isSub "image/svg" content_type || strEnds ".svg" img_url then
    ("svg", "image/svg+xml")
  else if isSub "image/webp" content_type || strEnds ".webp" img_url then
    ("webp", "image/webp")
  else
    ("jpg", "image/jpeg")

/-- The recognized image types in code order: media-type marker, URL
extensions, inferred extension, inferred media type. -/
def recognizedTypes : List (String × List String × String × String) :=
  [("image/jpeg", [".jpg", ".jpeg"], "jpg", "image/jpeg"),
   ("image/png", [".png"], "png", "image/png"),
   ("image/gif", [".gif"], "gif", "image/gif"),
   ("image/svg", [".svg"], "svg", "image/svg+xml"),
   ("image/webp", [".webp"], "webp", "image/webp")]

/-- Ordered first-match reading of the inference: walk the recognized types
in order, pick the first whose media marker occurs in the header or whose
extension ends the URL, defaulting to JPEG. -/
def firstMatchInfer (content_type img_url : String) :
    List (String × List String × String × String) → String × String
  | [] => ("jpg", "image/jpeg")
  | (m, exts, e, mt) :: r =>
    if isSub m content_type || exts.any (fun x => strEnds x img_url) then (e, mt)
    else firstMatchInfer content_type img_url r

/-- An HTTP response as the image downloader sees it. -/
structure Resp where
  status : Nat
  contentType : String
  body : List Nat
deriving DecidableEq, Repr

/-- `IBMThinkScraper.download_image` (lines 228–258).  `none` for the
response models a raised network exception; `raise_for_status` turns a
4xx/5xx response into the same exception path (the function returns
`None`); otherwise the body plus inferred extension and media type are
returned. -/
def download_image (img_url : String) (resp : Option Resp) :
    Option (List Nat × String × String) :=
  match resp with
  | none => none
  | some r =>
    if 400 ≤ r.status ∧ r.status < 600 then none
    else some (r.body, (inferExtMedia r.contentType img_url).1,
               (inferExtMedia r.contentType img_url).2)

/-- The local asset name from `IBMThinkScraper.process_images` (lines
283–284): `images/img_` + first 12 hex characters of `md5(url)` + `.` +
inferred extension. -/
def localAssetName (img_url ext : String) : String :=
  "images/img_" ++ (md5hex (utf8Encode img_url)).take 12 ++ "." ++ ext

/-- The local name the pipeline assigns to an image URL when the server
answers with response `r`. -/
def assetNameFor (img_url : String) (r : Resp) : String :=
  localAssetName img_url (inferExtMedia r.contentType img_url).1

/-! ## The HTML document model -/

/-- An HTML node: a text node, or an element with a tag, an ordered
attribute list, and children.  This is the tree `BeautifulSoup` exposes
to the converter. -/
inductive Node where
  | text : String → Node
  | elem : String → List (String × String) → List Node → Node

/-- A forest of sibling HTML nodes (a markup fragment). -/
abbrev Forest := List Node

mutual
/-- Decidable equality of nodes. -/
def decEqN : (a b : Node) → Decidable (a = b)
  | .text s₁, .text s₂ =>
    if h : s₁ = s₂ then isTrue (by rw [h])
    else isFalse (fun he => h (Node.text.inj he))
  | .text _, .elem _ _ _ => isFalse (fun he => Node.noConfusion he)
  | .elem _ _ _, .text _ => isFalse (fun he => Node.noConfusion he)
  | .elem t₁ a₁ c₁, .elem t₂ a₂ c₂ =>
    if h1 : t₁ = t₂ then
      if h2 : a₁ = a₂ then
        match decEqF c₁ c₂ with
        | isTrue h3 => isTrue (by rw [h1, h2, h3])
        | isFalse h3 => isFalse (fun he => h3 (Node.elem.inj he).2.2)
      else isFalse (fun he => h2 (Node.elem.inj he).2.1)
    else isFalse (fun he => h1 (Node.elem.inj he).1)
/-- Decidable equality of forests. -/
def decEqF : (a b : Forest) → Decidable (a = b)
  | [], [] => isTrue rfl
  | [], _ :: _ => isFalse (fun he => List.noConfusion he)
  | _ :: _, [] => isFalse (fun he => List.noConfusion he)
  | x :: xs, y :: ys =>
    match decEqN x y, decEqF xs ys with
    | isTrue h1, isTrue h2 => isTrue (by rw [h1, h2])
    | isFalse h1, _ => isFalse (by intro he; injection he; exact h1 (by assumption))
    | _, isFalse h2 => isFalse (by intro he; injection he; exact h2 (by assumption))
end

instance : DecidableEq Node := decEqN

/-- Attribute lookup, `tag.get(k)`. -/
def getAttr (a : List (String × String)) (k : String) : Option String :=
  (a.find? (fun kv => kv.1 == k)).map (fun kv => kv.2)

/-- `tag.has_attr(k)`. -/
def hasAttr (a : List (String × String)) (k : String) : Bool := (getAttr a k).isSome

/-- `del tag[k]` (a no-op when the attribute is absent). -/
def delAttr (a : List (String × String)) (k : String) : List (String × String) :=
  a.filter (fun kv => !(kv.1 == k))

/-- `tag[k] = v`. -/
def setAttr (a : List (String × String)) (k v : String) : List (String × String) :=
  alistSet a k v

/-! ## The Asset Resolver (`IBMThinkScraper.process_images`, lines 260–302)

The network is modelled as an oracle `net : String → Nat → Option Resp`
giving, for each URL, the response to the `n`-th download attempt for that
URL (`none` = network exception), so that successive attempts may behave
differently; the running count of attempts is read off the attempt log.
`urljoin(self.base_url, src)` is the external `urllib.parse` collaborator
and is passed in as the function `resolve`. -/

/-- One cache entry of `self.downloaded_images` (url → record). -/
structure ImgRecord where
  filename : String
  content : List Nat
  media_type : String
deriving DecidableEq, Repr

/-- The mutable crawl state touched by `process_images`: the URL cache and
the log of download attempts actually performed (in order). -/
structure ImgState where
  cache : List (String × ImgRecord)
  log : List String
deriving DecidableEq, Repr

/-- CPython's escape of one byte inside a quoted `bytes`/`str` literal
(quote `q`): the quote and the backslash are backslash-escaped; tab,
newline and carriage return print symbolically; other ASCII printables
verbatim; everything else as a lowercase `\xHH` escape. -/
def pyByteRepr (q b : Nat) : List Char :=
  if b = q ∨ b = 92 then ['\\', Char.ofNat b]
  else if b = 9 then ['\\', 't']
  else if b = 10 then ['\\', 'n']
  else if b = 13 then ['\\', 'r']
  else if 32 ≤ b ∧ b < 127 then [Char.ofNat b]
  else ['\\', 'x', hexDigit (b / 16 % 16), hexDigit (b % 16)]

/-- CPython's `repr` of a `bytes` value: `b` plus the quoted escaped
bytes, quoted with a single quote unless the data holds a single quote
but no double quote. -/
def pyBytesRepr (bs : List Nat) : String :=
  let q : Nat := if bs.contains 39 && !bs.contains 34 then 34 else 39
  ⟨'b' :: Char.ofNat q :: (bs.flatMap (pyByteRepr q) ++ [Char.ofNat q])⟩

/-- CPython's `repr` of a string, with the same quote selection and
escapes (the pipeline's record fields are ASCII, for which this matches
CPython exactly; printable code points above `0x7f` render verbatim
here as they do there). -/
def pyStrRepr (s : String) : String :=
  let cs := s.data.map Char.toNat
  let q : Nat := if cs.contains 39 && !cs.contains 34 then 34 else 39
  ⟨Char.ofNat q :: (cs.flatMap (fun b =>
      if b = q ∨ b = 92 then ['\\', Char.ofNat b]
      else if b = 9 then ['\\', 't']
      else if b = 10 then ['\\', 'n']
      else if b = 13 then ['\\', 'r']
      else if b < 32 ∨ b = 127 then ['\\', 'x', hexDigit (b / 16 % 16), hexDigit (b % 16)]
      else [Char.ofNat b]) ++ [Char.ofNat q])⟩

/-- `str()` of a cached record dict, in insertion order.  This is the
value a cache hit assigns to the image's `src` (line 272 assigns the
*whole* record — the `Dict[str, str]` annotation on `downloaded_images`
is stale), and `str(content_soup)` at line 912 serializes the non-string
attribute value via `str`, so this string is what a cache-hit reference's
`src` becomes in the output. -/
def recordStr (rc : ImgRecord) : String :=
  "\x7b\x27filename\x27: " ++ (pyStrRepr rc.filename ++ (", \x27content\x27: " ++
    (pyBytesRepr rc.content ++ (", \x27media_type\x27: " ++
      (pyStrRepr rc.media_type ++ "\x7d")))))

mutual
/-- `process_images` on one node.  Mirrors the per-`<img>` body of the
Python loop: skip empty `src`; on a cache hit line 272 assigns the
*entire* cached record to `src` (rendered by the later `str()` as the
dict's `repr`, `recordStr` — not the local name) and drops `srcset`; on a
miss perform one download attempt, and only on success create the record,
rewrite `src` to the local name and drop `srcset`/`loading`.  Images are
visited in document order, as `find_all('img')` yields them. -/
def processImagesN (resolve : String → String) (net : String → Nat → Option Resp) :
    Node → ImgState → Node × ImgState
  | .text s, st => (.text s, st)
  | .elem tg a c, st =>
    if tg = "img" then
      let src := (getAttr a "src").getD ""
      if src = "" then
        let r := processImagesF resolve net c st
        (.elem tg a r.1, r.2)
      else
        let u := resolve src
        match alistFind st.cache u with
        | some rc =>
          let a' := delAttr (setAttr a "src" (recordStr rc)) "srcset"
          let r := processImagesF resolve net c st
          (.elem tg a' r.1, r.2)
        | none =>
          let attempt := st.log.count u
          let st₁ : ImgState := ⟨st.cache, st.log ++ [u]⟩
          match download_image u (net u attempt) with
          | none =>
            let r := processImagesF resolve net c st₁
            (.elem tg a r.1, r.2)
          | some dl =>
            let fn := localAssetName u dl.2.1
            let st₂ : ImgState := ⟨st₁.cache ++ [(u, ⟨fn, dl.1, dl.2.2⟩)], st₁.log⟩
            let a' := delAttr (delAttr (setAttr a "src" fn) "srcset") "loading"
            let r := processImagesF resolve net c st₂
            (.elem tg a' r.1, r.2)
    else
      let r := processImagesF resolve net c st
      (.elem tg a r.1, r.2)
/-- `process_images` over a forest, threading the crawl state left to right. -/
def processImagesF (resolve : String → String) (net : String → Nat → Option Resp) :
    Forest → ImgState → Forest × ImgState
  | [], st => ([], st)
  | n :: t, st =>
    let r₁ := processImagesN resolve net n st
    let r₂ := processImagesF resolve net t r₁.2
    (r₁.1 :: r₂.1, r₂.2)
end

/-- The crawl-state update of one iteration of the `process_images` loop
(the same branch structure as `processImagesN` on an `img`, state part
only). -/
def stepImg (resolve : String → String) (net : String → Nat → Option Resp)
    (src : String) (st : ImgState) : ImgState :=
  if src = "" then st
  else
    let u := resolve src
    match alistFind st.cache u with
    | some _ => st
    | none =>
      let st₁ : ImgState := ⟨st.cache, st.log ++ [u]⟩
      match download_image u (net u (st.log.count u)) with
      | none => st₁
      | some dl => ⟨st₁.cache ++ [(u, ⟨localAssetName u dl.2.1, dl.1, dl.2.2⟩)], st₁.log⟩

/-- Iterated `stepImg` over a list of `src` attributes in document order. -/
def stepImgs (resolve : String → String) (net : String → Nat → Option Resp) :
    List String → ImgState → ImgState
  | [], st => st
  | s :: t, st => stepImgs resolve net t (stepImg resolve net s st)

mutual
/-- The `src` attributes of the `img` elements of a subtree, in document
order (absent `src` reads as the empty string, as `img.get('src', '')`). -/
def imgSrcsN : Node → List String
  | .text _ => []
  | .elem tg a c =>
    (if tg = "img" then [(getAttr a "src").getD ""] else []) ++ imgSrcsF c
/-- The `src` attributes of the `img` elements of a forest, in document
order. -/
def imgSrcsF : Forest → List String
  | [] => []
  | n :: t => imgSrcsN n ++ imgSrcsF t
end

/-! ## The Link Rewriter (`IBMThinkScraper.clean_links`, lines 197–226)

`clean_links(soup, chapter_map)` is both passes: pass 1 is the call with
no map, pass 2 the call with the URL→chapter map (modelled as url →
`file_name`).  `soup.find(id=...)` lookups are performed against the input
forest (anchors processed earlier neither add nor, for the inputs arising
in the pipeline, remove `id` attributes). -/

mutual
/-- Is there an element with `id` attribute equal to `i` (`soup.find(id=i)`)? -/
def hasIdN (i : String) : Node → Bool
  | .text _ => false
  | .elem _ a c => (getAttr a "id" == some i) || hasIdF i c
/-- Forest version of `hasIdN`. -/
def hasIdF (i : String) : Forest → Bool
  | [] => false
  | n :: t => hasIdN i n || hasIdF i t
end

/-- The pass-1 strip conditions: script/mail-to scheme, the `adobe-cms`
broken-link marker, or a schemeless address ending in `.html`. -/
def stripCond (href : String) : Bool :=
  strStarts "javascript:" href || strStarts "mailto:" href ||
  isSub "adobe-cms" href || (strEnds ".html" href && !strStarts "http" href)

/-- The condition under which a link is rewritten to a chapter file name:
an absolute `http(s)` address containing `ibm.com/think` that is a key of
the (non-empty) chapter map. -/
def rewriteCond (m : List (String × String)) (href : String) : Bool :=
  strStarts "http" href && isSub "ibm.com/think" href && (alistFind m href).isSome

mutual
/-- `clean_links` on one node (result is a forest because `unwrap()`
splices the anchor's children into its place). -/
def cleanLinksN (m : List (String × String)) (ids : String → Bool) : Node → Forest
  | .text s => [.text s]
  | .elem tg a c =>
    if tg = "a" ∧ hasAttr a "href" = true then
      let href := (getAttr a "href").getD ""
      if rewriteCond m href then
        [.elem tg (setAttr a "href" ((alistFind m href).getD "")) (cleanLinksF m ids c)]
      else if stripCond href then cleanLinksF m ids c
      else if strStarts "#" href && !ids (href.drop 1) then cleanLinksF m ids c
      else [.elem tg a (cleanLinksF m ids c)]
    else [.elem tg a (cleanLinksF m ids c)]
/-- `clean_links` over a forest. -/
def cleanLinksF (m : List (String × String)) (ids : String → Bool) : Forest → Forest
  | [] => []
  | n :: t => cleanLinksN m ids n ++ cleanLinksF m ids t
end

/-- `IBMThinkScraper.clean_links(soup, chapter_map)`. -/
def clean_links (f : Forest) (m : List (String × String)) : Forest :=
  cleanLinksF m (fun i => hasIdF i f) f

/-! ## Generic tree queries (BeautifulSoup `find` / `find_all`) -/

/-- The tag of a node (empty for text nodes, which tag searches never match). -/
def tagOf : Node → String
  | .text _ => ""
  | .elem t _ _ => t

/-- The attributes of a node. -/
def attrsOf : Node → List (String × String)
  | .text _ => []
  | .elem _ a _ => a

/-- The children of a node. -/
def childrenOf : Node → Forest
  | .text _ => []
  | .elem _ _ c => c

mutual
/-- First element (pre-order) of a node's subtree, the node included,
satisfying `p`. -/
def findFirstN (p : Node → Bool) : Node → Option Node
  | .text _ => none
  | .elem tg a c =>
    if p (.elem tg a c) then some (.elem tg a c) else findFirstF p c
/-- `container.find(...)`: first matching element of a forest, pre-order. -/
def findFirstF (p : Node → Bool) : Forest → Option Node
  | [] => none
  | n :: t =>
    match findFirstN p n with
    | some m => some m
    | none => findFirstF p t
end

mutual
/-- All matching elements of a node's subtree, pre-order (`find_all`). -/
def collectN (p : Node → Bool) : Node → List Node
  | .text _ => []
  | .elem tg a c =>
    (if p (.elem tg a c) then [Node.elem tg a c] else []) ++ collectF p c
/-- All matching elements of a forest, pre-order (`find_all`). -/
def collectF (p : Node → Bool) : Forest → List Node
  | [] => []
  | n :: t => collectN p n ++ collectF p t
end

mutual
/-- Node count of a subtree (used as recursion fuel for the nav parser). -/
def sizeN : Node → Nat
  | .text _ => 1
  | .elem _ _ c => 1 + sizeF c
/-- Node count of a forest. -/
def sizeF : Forest → Nat
  | [] => 0
  | n :: t => sizeN n + sizeF t
end

mutual
/-- `get_text(strip=True)`: concatenation of the stripped text fragments
of a node's subtree, in document order. -/
def textStripN : Node → String
  | .text s => pyStrip s
  | .elem _ _ c => textStripF c
/-- `get_text(strip=True)` over a forest. -/
def textStripF : Forest → String
  | [] => ""
  | n :: t => textStripN n ++ textStripF t
end

/-- Split on whitespace characters (like `String.split Char.isWhitespace`,
but structurally recursive). -/
def splitWsAux : List Char → List Char → List String
  | [], acc => [⟨acc.reverse⟩]
  | c :: t, acc =>
    if c.isWhitespace then ⟨acc.reverse⟩ :: splitWsAux t [] else splitWsAux t (c :: acc)

/-- Split a string on whitespace characters. -/
def splitWs (s : String) : List String := splitWsAux s.data []

/-- The whitespace-separated tokens of the `class` attribute (BeautifulSoup
treats `class` as multi-valued). -/
def classTokens (a : List (String × String)) : List String :=
  (splitWs ((getAttr a "class").getD "")).filter (fun t => t ≠ "")

/-- BeautifulSoup `class_="cl"`: some class token equals `cl` exactly. -/
def hasClassToken (a : List (String × String)) (cl : String) : Bool :=
  (classTokens a).contains cl

/-- BeautifulSoup `class_=re.compile(r'sidebar|nav|toc')`: `re.search`
matches some class token, i.e. some token has one of the three words as a
substring. -/
def classNavRegex (a : List (String × String)) : Bool :=
  (classTokens a).any (fun t => isSub "sidebar" t || isSub "nav" t || isSub "toc" t)

/-! ## The Structural Sanitizer (`IBMThinkScraper.clean_html`, lines 304–460)

The eleven documented steps are embedded as functional passes over the
forest, composed in source order.  The in-place `decompose`/`replace_with`
loops of the Python code iterate over snapshots taken up front, in
document order; because ancestors are visited before their descendants and
every removal takes the whole subtree with it, each loop is equivalent to
the corresponding top-down (or, for the heading flattening and picture
unwrapping, bottom-up first-match) recursive transform used here. -/

mutual
/-- Is there an element satisfying `p` in the subtree (node included)? -/
def anyElemN (p : Node → Bool) : Node → Bool
  | .text _ => false
  | .elem tg a c => p (.elem tg a c) || anyElemF p c
/-- Is there an element satisfying `p` in the forest? -/
def anyElemF (p : Node → Bool) : Forest → Bool
  | [] => false
  | n :: t => anyElemN p n || anyElemF p t
end

/-- Element with the given tag. -/
def isTagP (t : String) : Node → Bool
  | .text _ => false
  | .elem tg _ _ => tg == t

mutual
/-- Remove every outermost node satisfying `p` together with its whole
subtree, recursing into kept nodes.  This is the shape of every
snapshot-based `decompose` loop of `clean_html`: document order visits
ancestors first, so each removal decision is taken on the node's original
subtree. -/
def removeIfN (p : Node → Bool) : Node → Node
  | .text s => .text s
  | .elem tg a c => .elem tg a (removeIfF p c)
/-- Forest version of `removeIfN`. -/
def removeIfF (p : Node → Bool) : Forest → Forest
  | [] => []
  | n :: t => if p n then removeIfF p t else removeIfN p n :: removeIfF p t
end

/-- The MathML empty-husk condition (lines 318–327): a math descendant is
dropped when it has no stripped text and either no attributes or no
element descendants. -/
def mathHusk : Node → Bool
  | .text _ => false
  | .elem _ a c =>
    textStripF c == "" && (a.isEmpty || !anyElemF (fun _ => true) c)

mutual
/-- Fuel-bounded MathML normalization (step 2, lines 313–327): each `math`
element gets an `xmlns` when its own is absent or empty, and its
descendants are filtered by the husk condition; nested `math` elements are
processed again afterwards, exactly as the later iterations of the
`find_all('math')` loop do.  The fuel only bounds the recursion depth;
`clean_html` passes `sizeF f + 1`, which exceeds the length of any
descending chain of subtrees, so the bound is never hit. -/
def mcN : Nat → Node → Node
  | 0, n => n
  | _ + 1, .text s => .text s
  | fuel + 1, .elem tg a c =>
    if tg = "math" then
      .elem tg
        (if (getAttr a "xmlns").getD "" = "" then
          setAttr a "xmlns" "http://www.w3.org/1998/Math/MathML"
        else a)
        (mcF fuel (removeIfF mathHusk c))
    else .elem tg a (mcF fuel c)
/-- Forest version of `mcN`. -/
def mcF : Nat → Forest → Forest
  | 0, f => f
  | _ + 1, [] => []
  | fuel + 1, n :: t => mcN fuel n :: mcF fuel t
end

mutual
/-- Step 4 (lines 342–359): convert `cds-code-snippet` custom elements to
standard code markup; the `multi` variant becomes `pre > code`, anything
else an inline `code`, with the element's stripped text as content. -/
def codeSnippetN : Node → Node
  | .text s => .text s
  | .elem tg a c =>
    if tg = "cds-code-snippet" then
      if (getAttr a "type").getD "inline" = "multi" then
        .elem "pre" [] [.elem "code" [] [.text (textStripF c)]]
      else .elem "code" [] [.text (textStripF c)]
    else .elem tg a (codeSnippetF c)
/-- Forest version of `codeSnippetN`. -/
def codeSnippetF : Forest → Forest
  | [] => []
  | n :: t => codeSnippetN n :: codeSnippetF t
end

mutual
/-- Transform every element's attribute list by `g` (tag-dependent). -/
def attrMapN (g : String → List (String × String) → List (String × String)) : Node → Node
  | .text s => .text s
  | .elem tg a c => .elem tg (g tg a) (attrMapF g c)
/-- Forest version of `attrMapN`. -/
def attrMapF (g : String → List (String × String) → List (String × String)) :
    Forest → Forest
  | [] => []
  | n :: t => attrMapN g n :: attrMapF g t
end

/-- Step 5 (lines 361–368): strip deprecated table presentation attributes. -/
def tableAttrFix (tg : String) (a : List (String × String)) :
    List (String × String) :=
  if tg = "table" then delAttr (delAttr (delAttr a "cellpadding") "cellspacing") "border"
  else a

mutual
/-- Step 6 (lines 370–383): unwrap `picture` containers, keeping only the
first nested `img` (sources discarded); a `picture` with no `img` is
dropped.  Processing is bottom-up; since both the Python loop and this
transform always keep exactly the pre-order-first `img` of the subtree,
the results agree. -/
def pictureCleanN : Node → Forest
  | .text s => [.text s]
  | .elem tg a c =>
    let c' := pictureCleanF c
    if tg = "picture" then
      match findFirstF (isTagP "img") c' with
      | some i => [i]
      | none => []
    else [.elem tg a c']
/-- Forest version of `pictureCleanN`. -/
def pictureCleanF : Forest → Forest
  | [] => []
  | n :: t => pictureCleanN n ++ pictureCleanF t
end

/-- Step 7's invalid `img` source condition (lines 385–396). -/
def badImgSrc (src : String) : Bool :=
  strStarts "data:" src || strStarts "http://" src || strStarts "https://" src ||
  strStarts "//" src || isSub "%%" src ||
  (!(src == "") && isSub "%" src && !strStarts "http" src)

/-- Step 7: an `img` whose `src` is a data URI, an absolute or
protocol-relative address, or contains percent patterns. -/
def badImg : Node → Bool
  | .text _ => false
  | .elem tg a _ => tg == "img" && badImgSrc ((getAttr a "src").getD "")

/-- An absolute or protocol-relative remote reference. -/
def remoteRef (s : String) : Bool :=
  strStarts "http://" s || strStarts "https://" s || strStarts "//" s

/-- Step 8a (lines 398–402): a stylesheet `link` with a remote `href`. -/
def badStylesheet : Node → Bool
  | .text _ => false
  | .elem tg a _ =>
    tg == "link" && hasAttr a "href" && remoteRef ((getAttr a "href").getD "")

/-- Step 8b (lines 404–408): any element with a remote `src`. -/
def badRemoteSrc : Node → Bool
  | .text _ => false
  | .elem _ a _ => hasAttr a "src" && remoteRef ((getAttr a "src").getD "")

/-- The six heading tags. -/
def isHeadingTag (t : String) : Bool :=
  t == "h1" || t == "h2" || t == "h3" || t == "h4" || t == "h5" || t == "h6"

/-- The inline/text-level container tags of step 9b. -/
def isInlineTag (t : String) : Bool :=
  t == "p" || t == "span" || t == "a" || t == "strong" || t == "em" ||
  t == "i" || t == "b" || t == "u"

/-- A list element (`ul`/`ol`). -/
def isListTag (t : String) : Bool := t == "ul" || t == "ol"

/-- A heading element. -/
def headP (n : Node) : Bool := isHeadingTag (tagOf n)

/-- A list element. -/
def listP (n : Node) : Bool := isListTag (tagOf n)

/-- An inline/text-level container element. -/
def inlineP (n : Node) : Bool := isInlineTag (tagOf n)

mutual
/-- Step 9a (lines 410–418): a heading that contains a heading is replaced
by the first (pre-order) heading of its subtree, iterated to a fixpoint —
the six level-ordered `find_all` passes of the Python code flatten every
nested-heading chain down to the pre-order-first terminal heading, which
the bottom-up recursion computes directly. -/
def fixNestedHeadN : Node → Node
  | .text s => .text s
  | .elem tg a c =>
    let c' := fixNestedHeadF c
    if isHeadingTag tg then
      match findFirstF headP c' with
      | some d => d
      | none => .elem tg a c'
    else .elem tg a c'
/-- Forest version of `fixNestedHeadN`. -/
def fixNestedHeadF : Forest → Forest
  | [] => []
  | n :: t => fixNestedHeadN n :: fixNestedHeadF t
end

mutual
/-- The outermost heading elements of a subtree, in document order. -/
def outerHeadingsN : Node → List Node
  | .text _ => []
  | .elem tg a c =>
    if isHeadingTag tg then [.elem tg a c] else outerHeadingsF c
/-- The outermost heading elements of a forest, in document order. -/
def outerHeadingsF : Forest → List Node
  | [] => []
  | n :: t => outerHeadingsN n ++ outerHeadingsF t
end

mutual
/-- Step 9b (lines 420–426): every heading inside an inline/text-level
element is extracted and placed immediately before that inline container,
in document order. -/
def headingsOutN : Node → Forest
  | .text s => [.text s]
  | .elem tg a c =>
    if isInlineTag tg then
      outerHeadingsF c ++
        [.elem tg a (removeIfF headP c)]
    else [.elem tg a (headingsOutF c)]
/-- Forest version of `headingsOutN`. -/
def headingsOutF : Forest → Forest
  | [] => []
  | n :: t => headingsOutN n ++ headingsOutF t
end

mutual
/-- All list elements of a subtree in document order, each with its own
outermost nested lists removed (they are extracted separately).  This is
what the sequence of `extract(); insert_after()` calls of step 9c leaves
of each list. -/
def collectListsN : Node → List Node
  | .text _ => []
  | .elem tg a c =>
    (if isListTag tg then
      [Node.elem tg a (removeIfF listP c)]
    else []) ++ collectListsF c
/-- Forest version of `collectListsN`. -/
def collectListsF : Forest → List Node
  | [] => []
  | n :: t => collectListsN n ++ collectListsF t
end

mutual
/-- Step 9c (lines 428–434): lists inside a heading are moved to
immediately follow the heading; because each list is inserted directly
after the heading, the extracted lists end up in reverse document order. -/
def listsOutN : Node → Forest
  | .text s => [.text s]
  | .elem tg a c =>
    if isHeadingTag tg then
      Node.elem tg a (removeIfF listP c) ::
        (collectListsF c).reverse
    else [.elem tg a (listsOutF c)]
/-- Forest version of `listsOutN`. -/
def listsOutF : Forest → Forest
  | [] => []
  | n :: t => listsOutN n ++ listsOutF t
end

/-- Step 10 (lines 436–439): a `p`/`div`/`span` with neither stripped text
nor an `img` descendant. -/
def emptyPds : Node → Bool
  | .text _ => false
  | .elem tg _ c =>
    (tg == "p" || tg == "div" || tg == "span") && textStripF c == "" &&
      !anyElemF (isTagP "img") c

/-- The fixed deny-list of step 11 (lines 442–448). -/
def invalidAttrs : List String :=
  ["slot", "viewbox", "driverlocation", "cta-type", "icon-placement",
   "data-cmp-hook-image", "data-cmp-is", "data-cmp-widths", "data-cmp-dmimage",
   "data-cmp-src", "data-asset-id", "data-cmp-filereference", "data-cmp-data-layer",
   "data-cmp-aspectratio", "data-cmp-aspectratio-max", "data-cmp-aspectratio-xl",
   "data-cmp-aspectratio-md", "data-cmp-aspectratio-lg", "data-cmp-aspectratio-sm"]

/-- Step 11's per-attribute condition (lines 450–458). -/
def invalidAttr (k : String) : Bool :=
  invalidAttrs.contains k || strStarts "data-cmp" k || strStarts "data-asset" k

/-- Step 11: strip the deny-listed and vendor-prefixed attributes. -/
def invalidAttrFix (_ : String) (a : List (String × String)) :
    List (String × String) :=
  a.filter (fun kv => !invalidAttr kv.1)

/-- A `video` or `audio` element (step 3 removes them all: the code never
checks their sources). -/
def isMediaP (n : Node) : Bool := isTagP "video" n || isTagP "audio" n

/-- A table still carrying a deprecated presentation attribute. -/
def badTableQ : Node → Bool
  | .text _ => false
  | .elem tg a _ =>
    tg == "table" &&
      (hasAttr a "cellpadding" || hasAttr a "cellspacing" || hasAttr a "border")

/-- An element still carrying a deny-listed or vendor-prefixed attribute. -/
def attrsBadQ : Node → Bool
  | .text _ => false
  | .elem _ a _ => a.any (fun kv => invalidAttr kv.1)

/-- The element kinds steps 1–3 remove outright. -/
def removedTagsQ (n : Node) : Bool :=
  isTagP "svg" n || isTagP "math" n || isTagP "iframe" n || isMediaP n ||
    isTagP "script" n

/-- Everything `clean_html` eliminates element-wise: the removed tags,
code-snippet custom elements, deprecated table attributes, `picture`
wrappers, invalid images, remote stylesheets and remote `src` references. -/
def cleanQ (n : Node) : Bool :=
  removedTagsQ n || isTagP "cds-code-snippet" n || badTableQ n ||
    isTagP "picture" n || badImg n || badStylesheet n || badRemoteSrc n

/-- `IBMThinkScraper.clean_html`: the eleven sanitation steps in source
order (SVG removal; MathML normalization; iframe, media and script
removal; code-snippet conversion; table attribute stripping; picture
unwrapping; invalid-image, remote-stylesheet and remote-src removal;
heading repair (nested headings, headings in inline containers, lists in
headings); empty-container removal; invalid-attribute stripping). -/
def clean_html (f : Forest) : Forest :=
  attrMapF invalidAttrFix
    (removeIfF emptyPds
      (listsOutF
        (headingsOutF
          (fixNestedHeadF
            (removeIfF badRemoteSrc
              (removeIfF badStylesheet
                (removeIfF badImg
                  (pictureCleanF
                    (attrMapF tableAttrFix
                      (codeSnippetF
                        (removeIfF (isTagP "script")
                          (removeIfF isMediaP
                            (removeIfF (isTagP "iframe")
                              ((fun g => mcF (sizeF g + 1) g)
                                (removeIfF (isTagP "svg") f)))))))))))))))

mutual
/-- No element satisfying `b` occurs anywhere inside an element satisfying
`a` (used for the heading-repair postconditions). -/
def sepN (a b : Node → Bool) : Node → Bool
  | .text _ => true
  | .elem tg ats c =>
    (if a (.elem tg ats c) then !anyElemF b c else true) && sepF a b c
/-- Forest version of `sepN`. -/
def sepF (a b : Node → Bool) : Forest → Bool
  | [] => true
  | n :: t => sepN a b n && sepF a b t
end

/-! ## The Navigation Parser
(`extract_toc_from_sidebar` / `_parse_navigation_level` /
`_parse_navigation_item`, lines 41–129) -/

/-- A parsed navigation entry: a terminal link (title, absolute url, raw
href, level) or a collapsible section (title, level, children).  This is
the dict shape the Python parser produces. -/
inductive TocNode where
  | link : String → String → String → Nat → TocNode
  | sect : String → Nat → List TocNode → TocNode

/-- `f'cmp-side-navigation__level{level}'`. -/
def navLevelClass (level : Nat) : String :=
  "cmp-side-navigation__level" ++ toString level

/-- `f'cmp-side-navigation__section--level{level}'`. -/
def navSectionClass (level : Nat) : String :=
  "cmp-side-navigation__section--level" ++ toString level

/-- `f'cmp-side-navigation__item--level{level}'`. -/
def navItemClass (level : Nat) : String :=
  "cmp-side-navigation__item--level" ++ toString level

/-- `re.sub(r'\s+', ' ', s).strip()`: collapse whitespace runs. -/
def collapseWs (s : String) : String :=
  String.intercalate " " ((splitWs s).filter (fun t => t ≠ ""))

/-- The title of a collapsible section (`_parse_navigation_item`, lines
104–117): concatenate the stripped text of the span's direct children,
skipping `svg` elements, empty strings and the literal `Caret right`
expand marker, then collapse whitespace. -/
def collapsibleTitle (spanChildren : Forest) : String :=
  let parts := spanChildren.filterMap (fun ch =>
    if tagOf ch = "svg" then none
    else
      let t := textStripN ch
      if t ≠ "" ∧ t ≠ "Caret right" then some t else none)
  collapseWs (String.intercalate " " parts)

/-- `_parse_navigation_level` with `_parse_navigation_item` inlined.  The
`fuel` argument bounds the recursion depth (the Python recursion is
bounded by the finite nesting of the document; any fuel at least the
subtree size is enough).  At each level: find the `ul` for the level among
the container's descendants, then for each direct `li` child tagged for
the level, emit a link (anchor direct child with the level's item class,
non-empty href and title), else a section (collapsible span direct child
with non-empty extracted title, children parsed one level deeper), else
drop the item. -/
def parseNavLevel (resolve : String → String) : Nat → Nat → Node → List TocNode
  | 0, _, _ => []
  | fuel + 1, level, container =>
    match findFirstF
        (fun n => tagOf n == "ul" && hasClassToken (attrsOf n) (navLevelClass level))
        (childrenOf container) with
    | none => []
    | some ul =>
      ((childrenOf ul).filter
        (fun li => tagOf li == "li" && hasClassToken (attrsOf li) (navSectionClass level))).filterMap
        (fun li =>
          let linkRes :=
            match (childrenOf li).find?
                (fun n => tagOf n == "a" && hasClassToken (attrsOf n) (navItemClass level)) with
            | some lk =>
              let href := (getAttr (attrsOf lk) "href").getD ""
              let title := textStripN lk
              if href ≠ "" ∧ title ≠ "" then
                some (TocNode.link title (resolve href) href level)
              else none
            | none => none
          match linkRes with
          | some x => some x
          | none =>
            match (childrenOf li).find?
                (fun n => tagOf n == "span" &&
                  hasClassToken (attrsOf n) "cmp-side-navigation__item--collapsible") with
            | none => none
            | some sp =>
              let title := collapsibleTitle (childrenOf sp)
              if title ≠ "" then
                some (TocNode.sect title level (parseNavLevel resolve fuel (level + 1) li))
              else none)

/-- `IBMThinkScraper.extract_toc_from_sidebar` (lines 41–58).  When the
primary `nav.cmp-side-navigation` container is absent, the code assigns
the *list* returned by `find_all` to `sidebar` and then calls
`_parse_navigation_level(sidebar, 0)`, whose first statement invokes
`.find` on that `ResultSet` — which raises `AttributeError` whenever the
fallback scan found anything; the raise is modelled by `Except.error`. -/
def extract_toc_from_sidebar (resolve : String → String) (soup : Forest) :
    Except String (List TocNode) :=
  match findFirstF
      (fun n => tagOf n == "nav" && hasClassToken (attrsOf n) "cmp-side-navigation") soup with
  | some sidebar => .ok (parseNavLevel resolve (sizeN sidebar) 0 sidebar)
  | none =>
    match collectF
        (fun n => (tagOf n == "nav" || tagOf n == "aside") && classNavRegex (attrsOf n)) soup with
    | [] => .ok []
    | _ :: _ => .error "AttributeError: ResultSet object has no attribute find"

/-! ## TOC flattening and filtering
(`_flatten_toc_structure`, `_limit_toc_structure`, lines 131–161) -/

mutual
/-- `_flatten_toc_structure` on one node: links are kept, sections are
replaced by their flattened children. -/
def flattenTocN : TocNode → List TocNode
  | .link t u h l => [.link t u h l]
  | .sect _ _ c => flattenTocF c
/-- `_flatten_toc_structure` over a list. -/
def flattenTocF : List TocNode → List TocNode
  | [] => []
  | n :: r => flattenTocN n ++ flattenTocF r
end

mutual
/-- `_limit_toc_structure` on one node: a link survives iff its url is in
the allow-set; a section survives iff its filtered children are
non-empty. -/
def limitTocN (S : List String) : TocNode → Option TocNode
  | .link t u h l => if S.contains u then some (.link t u h l) else none
  | .sect t l c =>
    let c' := limitTocF S c
    if c'.isEmpty then none else some (.sect t l c')
/-- `_limit_toc_structure` over a list. -/
def limitTocF (S : List String) : List TocNode → List TocNode
  | [] => []
  | n :: r =>
    match limitTocN S n with
    | some m => m :: limitTocF S r
    | none => limitTocF S r
end

mutual
/-- No section node anywhere has an empty children sequence. -/
def noEmptySectN : TocNode → Bool
  | .link _ _ _ _ => true
  | .sect _ _ c => !c.isEmpty && noEmptySectF c
/-- Forest version of `noEmptySectN`. -/
def noEmptySectF : List TocNode → Bool
  | [] => true
  | n :: r => noEmptySectN n && noEmptySectF r
end

/-- Is this a link node whose url lies in `S`? -/
def linkInSet (S : List String) : TocNode → Bool
  | .link _ u _ _ => S.contains u
  | .sect _ _ _ => false

mutual
/-- Every section node of the tree keeps at least one link descendant (its
flattened subtree is non-empty). -/
def sectsHaveLinksN : TocNode → Bool
  | .link _ _ _ _ => true
  | .sect _ _ c => !(flattenTocF c).isEmpty && sectsHaveLinksF c
/-- Forest version of `sectsHaveLinksN`. -/
def sectsHaveLinksF : List TocNode → Bool
  | [] => true
  | n :: r => sectsHaveLinksN n && sectsHaveLinksF r
end

/-! ## Chapters and the EPUB book (`EPUBGenerator`, lines 463–502) -/

/-- One EPUB chapter as `add_chapter` creates it. -/
structure Chapter where
  title : String
  file_name : String
  content : String
  properties : List String
deriving DecidableEq, Repr

/-- The book state `add_chapter` updates: the chapter list and the
url → chapter-file-name map used by pass-2 link rewriting. -/
structure Book where
  chapters : List Chapter
  chapter_map : List (String × String)
deriving DecidableEq, Repr

/-- The chapter content stored by `add_chapter` (line 482):
`f'<h1>{title}</h1>\n{content}'`. -/
def addChapterContent (title content : String) : String :=
  "<h1>" ++ title ++ "</h1>\n" ++ content

/-- The chapter object `add_chapter` builds, including the `mathml`
property when the sanitized fragment contains `<math`. -/
def mkChapter (title content file_name : String) : Chapter :=
  { title := title, file_name := file_name,
    content := addChapterContent title content,
    properties := if isSub "<math" content then ["mathml"] else [] }

/-- `EPUBGenerator.add_chapter` (lines 475–502): build the chapter, append
it to the book, and record `url → file_name` when a non-empty url is
given. -/
def add_chapter (b : Book) (title content file_name : String) (url : Option String) :
    Book × Chapter :=
  let ch := mkChapter title content file_name
  ({ chapters := b.chapters ++ [ch],
     chapter_map :=
       match url with
       | some u => if u = "" then b.chapter_map else alistSet b.chapter_map u file_name
       | none => b.chapter_map }, ch)

/-! ## The page-processing loop of `main` (lines 890–926) -/

/-- One page of the flattened TOC, together with the outcome of fetching
and extracting it: `none` when the fetch failed, otherwise the string
`extract_content` returned. -/
structure PageInput where
  title : String
  url : String
  fetched : Option String
deriving DecidableEq, Repr

/-- `f"chapter_{idx:03d}.xhtml"`. -/
def chapterFileName (idx : Nat) : String :=
  let s := toString idx
  "chapter_" ++ (if s.length < 3 then String.mk (List.replicate (3 - s.length) '0') else "")
    ++ s ++ ".xhtml"

/-- The chapter-building effects of the page loop: a page whose fetch
failed, or whose extracted content is empty or has stripped length below
100, is skipped (no chapter); otherwise the transformed content is added
as chapter `chapter_{idx:03d}.xhtml`.  `transform` stands for the
per-page content pipeline (`process_images`, `clean_links`, `clean_html`
on the serialized fragment); `idx` is the running 1-based enumeration
index, which advances for skipped pages too. -/
def processLoop (transform : String → String) : Nat → List PageInput → List Chapter
  | _, [] => []
  | idx, pg :: rest =>
    match pg.fetched with
    | none => processLoop transform (idx + 1) rest
    | some content =>
      if content = "" ∨ (pyStrip content).length < 100 then
        processLoop transform (idx + 1) rest
      else
        mkChapter pg.title (transform content) (chapterFileName idx) ::
          processLoop transform (idx + 1) rest

/-! ## Supporting lemmas -/

set_option maxRecDepth 100000 in
/-- RFC 1321 test vector validating the MD5 embedding. -/
theorem md5_test_vector :
    md5hex (utf8Encode "abc") = "900150983cd24fb0d6963f7d28e17f72" := by decide

/-- A successful association-list lookup is unaffected by entries appended
on the right. -/
theorem alistFind_append_left {α : Type} (m₁ m₂ : List (String × α)) (k : String) (v : α)
    (h : alistFind m₁ k = some v) : alistFind (m₁ ++ m₂) k = some v := by
  unfold alistFind at h ⊢
  cases hf : m₁.find? (fun kv => kv.1 == k) with
  | none => rw [hf] at h; simp at h
  | some x => rw [List.find?_append, hf]; rw [hf] at h; simpa using h

/-- A string starts any of its own append-extensions. -/
theorem strStarts_append (p e : String) : strStarts p (p ++ e) = true := by
  unfold strStarts
  rw [String.data_append, List.isPrefixOf_iff_prefix]
  exact List.prefix_append _ _

/-- Left cancellation for string append. -/
theorem str_append_cancel_left (a b c : String) (h : a ++ b = a ++ c) : b = c := by
  have h2 := congrArg String.data h
  simp only [String.data_append] at h2
  exact String.ext (List.append_cancel_left h2)

/-- If `p` starts `s` and `p` begins with `c`, then `s` begins with `c`. -/
theorem strStarts_head (p s : String) (c : Char) (hp : p.data.head? = some c)
    (hs : strStarts p s = true) : s.data.head? = some c := by
  unfold strStarts at hs
  cases hpd : p.data with
  | nil => rw [hpd] at hp; simp at hp
  | cons a as =>
    rw [hpd] at hp hs
    cases hsd : s.data with
    | nil => rw [hsd] at hs; simp [List.isPrefixOf] at hs
    | cons b bs =>
      rw [hsd] at hs
      simp only [List.isPrefixOf, Bool.and_eq_true, beq_iff_eq] at hs
      simp only [List.head?] at hp ⊢
      rw [← hs.1]; exact hp

/-- Two prefixes beginning with different characters cannot both start `s`. -/
theorem strStarts_head_ne (p q s : String) (cp cq : Char)
    (hp : p.data.head? = some cp) (hq : q.data.head? = some cq) (hne : cp ≠ cq)
    (hs : strStarts p s = true) : strStarts q s = false := by
  cases hqs : strStarts q s with
  | false => rfl
  | true =>
    have h1 := strStarts_head p s cp hp hs
    have h2 := strStarts_head q s cq hq hqs
    rw [h1] at h2
    exact absurd (Option.some.inj h2) hne

/-! ## Claim C2 (extension / media-type inference) -/

/-- C2 counterexample: the response content-type names the recognized type
PNG, yet the inferred extension and media type come from the URL's `.jpg`
suffix, not from the header — the header does not take priority. -/
theorem c2_counterexample :
    inferExtMedia "image/png" "https://cdn.example.com/pic.jpg" = ("jpg", "image/jpeg") ∧
    inferExtMedia "image/png" "https://cdn.example.com/pic.jpg" ≠ ("png", "image/png") := by
  decide

/-- C2 (amended): inference walks the recognized types in the fixed order
jpeg, png, gif, svg, webp; a type is selected at the first position where
the content-type header contains its media-type string *or* the URL ends
with one of its extensions (so a URL suffix of an earlier type overrides a
header naming a later type); if no position matches, the default is JPEG
(`jpg` / `image/jpeg`). -/
theorem c2_amended (ct url : String) :
    inferExtMedia ct url = firstMatchInfer ct url recognizedTypes := by
  simp only [inferExtMedia, firstMatchInfer, recognizedTypes, List.any_cons, List.any_nil,
    Bool.or_false, Bool.or_assoc]

/-! ## Claim C3 (local asset names) -/

/-- C3 counterexample: the same absolute URL downloaded twice, with the
server answering `image/png` in one run and `image/gif` in the other,
yields two different local names — the local name is not a function of the
URL alone. -/
theorem c3_counterexample :
    assetNameFor "https://cdn.example.com/asset" ⟨200, "image/png", []⟩ ≠
      assetNameFor "https://cdn.example.com/asset" ⟨200, "image/gif", []⟩ := by
  intro h
  have e1 : (inferExtMedia "image/png" "https://cdn.example.com/asset").1 = "png" := by decide
  have e2 : (inferExtMedia "image/gif" "https://cdn.example.com/asset").1 = "gif" := by decide
  unfold assetNameFor localAssetName at h
  rw [e1, e2] at h
  exact absurd (str_append_cancel_left _ _ _ h) (by decide)

/-- C3 (amended): the local name is a pure function of the absolute source
URL *and the response's content-type header* — it never depends on the
response body or status —, and its `images/img_<12-hex-hash>.` prefix is a
pure function of the URL alone. -/
theorem c3_amended (u : String) (r₁ r₂ : Resp) (h : r₁.contentType = r₂.contentType) :
    assetNameFor u r₁ = assetNameFor u r₂ ∧
    strStarts ("images/img_" ++ (md5hex (utf8Encode u)).take 12 ++ ".")
      (assetNameFor u r₁) = true := by
  constructor
  · unfold assetNameFor; rw [h]
  · exact strStarts_append _ _

/-- Witness for `c3_amended` at concrete responses differing in body and
status but not in content-type. -/
theorem c3_amended_witness :
    assetNameFor "https://cdn.example.com/asset" ⟨200, "image/png", [1, 2]⟩ =
      assetNameFor "https://cdn.example.com/asset" ⟨204, "image/png", [3]⟩ ∧
    strStarts ("images/img_" ++
        (md5hex (utf8Encode "https://cdn.example.com/asset")).take 12 ++ ".")
      (assetNameFor "https://cdn.example.com/asset" ⟨200, "image/png", [1, 2]⟩) = true :=
  c3_amended "https://cdn.example.com/asset" ⟨200, "image/png", [1, 2]⟩
    ⟨204, "image/png", [3]⟩ rfl

/-! ## Claim C6 (TOC extraction on structural absence of navigation) -/

/-- A page with no `nav.cmp-side-navigation` but with an `aside` whose
class hints at sidebar semantics. -/
def c6soup : Forest :=
  [.elem "div" []
    [.elem "aside" [("class", "sidebar")]
      [.elem "ul" [] [.elem "li" [] [.text "item"]]]]]

/-- C6: when the primary navigation container is absent,
`extract_toc_from_sidebar` does *not* always return normally: if the
best-effort fallback scan finds any sidebar/nav/toc-like element, the code
calls `.find` on the `ResultSet` returned by `find_all` and raises
`AttributeError` (first conjunct); only when the fallback finds nothing at
all does the function return normally with an empty list, letting the
driver fall back to the single-page TOC (second conjunct). -/
theorem c6_fallback_raises :
    extract_toc_from_sidebar (fun s => s) c6soup =
      .error "AttributeError: ResultSet object has no attribute find" ∧
    extract_toc_from_sidebar (fun s => s) [.elem "div" [] [.text "no nav here"]] = .ok [] :=
  ⟨rfl, rfl⟩

/-! ## Claim C7 (minimum-content threshold) -/

/-- C7: a page whose extracted content strips to fewer than 100 characters
is skipped entirely — no chapter is created for it and the loop continues
with the remaining pages (the enumeration index still advances). -/
theorem c7_short_content_skipped (transform : String → String) (idx : Nat)
    (pg : PageInput) (rest : List PageInput) (c : String)
    (hc : pg.fetched = some c) (hlen : (pyStrip c).length < 100) :
    processLoop transform idx (pg :: rest) = processLoop transform (idx + 1) rest := by
  simp only [processLoop, hc]
  rw [if_pos (Or.inr hlen)]

/-- Witness for `c7_short_content_skipped`: the spec's own scenario, a page
whose extracted content is `"<p>Hi</p>"`. -/
theorem c7_short_content_skipped_witness :
    processLoop (fun s => s) 1
      [⟨"T", "https://www.ibm.com/think/p", some "<p>Hi</p>"⟩,
       ⟨"U", "https://www.ibm.com/think/q", none⟩] =
    processLoop (fun s => s) 2 [⟨"U", "https://www.ibm.com/think/q", none⟩] :=
  c7_short_content_skipped (fun s => s) 1 _ _ "<p>Hi</p>" rfl (by decide)

/-! ## Claim C10 (title heading injected by `add_chapter`) -/

/-- C10: for every call to `add_chapter` with title `t` and sanitized
fragment `c`, the stored chapter content equals `<h1>` + t + `</h1>\n` + c
— in particular it begins with an `<h1>` containing the title — and the
chapter is appended to the book. -/
theorem c10_add_chapter (b : Book) (title content file_name : String) (url : Option String) :
    ((add_chapter b title content file_name url).2).content =
      "<h1>" ++ title ++ "</h1>\n" ++ content ∧
    strStarts ("<h1>" ++ title ++ "</h1>\n")
      ((add_chapter b title content file_name url).2).content = true ∧
    (add_chapter b title content file_name url).1.chapters =
      b.chapters ++ [(add_chapter b title content file_name url).2] := by
  refine ⟨rfl, ?_, rfl⟩
  show strStarts _ (addChapterContent title content) = true
  exact strStarts_append _ _

/-! ## Claim C1 (at most one download per image URL) -/

/-- `stepImgs` distributes over list append. -/
theorem stepImgs_append (resolve : String → String) (net : String → Nat → Option Resp)
    (l₁ : List String) : ∀ (l₂ : List String) (st : ImgState),
    stepImgs resolve net (l₁ ++ l₂) st =
      stepImgs resolve net l₂ (stepImgs resolve net l₁ st) := by
  induction l₁ with
  | nil => intro l₂ st; rfl
  | cons s t ih => intro l₂ st; simp only [List.cons_append, stepImgs]; exact ih _ _

mutual
/-- The crawl state after `process_images` on a node is the iterated
per-image update over the node's image sources in document order. -/
theorem processImagesN_state (resolve : String → String) (net : String → Nat → Option Resp) :
    (n : Node) → (st : ImgState) →
      (processImagesN resolve net n st).2 = stepImgs resolve net (imgSrcsN n) st
  | .text s, st => by
    simp [processImagesN, imgSrcsN, stepImgs]
  | .elem tg a c, st => by
    have ihc := processImagesF_state resolve net c
    by_cases htg : tg = "img"
    · subst htg
      by_cases hsrc : (getAttr a "src").getD "" = ""
      · simp [processImagesN, imgSrcsN, stepImgs, stepImg, hsrc, ihc]
      · cases hcache : alistFind st.cache (resolve ((getAttr a "src").getD "")) with
        | some rc =>
          simp [processImagesN, imgSrcsN, stepImgs, stepImg, hsrc, hcache, ihc]
        | none =>
          cases hdl : download_image (resolve ((getAttr a "src").getD ""))
              (net (resolve ((getAttr a "src").getD ""))
                (st.log.count (resolve ((getAttr a "src").getD "")))) with
          | none =>
            simp [processImagesN, imgSrcsN, stepImgs, stepImg, hsrc, hcache, hdl, ihc]
          | some dl =>
            simp [processImagesN, imgSrcsN, stepImgs, stepImg, hsrc, hcache, hdl, ihc]
    · simp [processImagesN, imgSrcsN, stepImgs, htg, ihc]
/-- Forest version of `processImagesN_state`. -/
theorem processImagesF_state (resolve : String → String) (net : String → Nat → Option Resp) :
    (f : Forest) → (st : ImgState) →
      (processImagesF resolve net f st).2 = stepImgs resolve net (imgSrcsF f) st
  | [], st => by simp [processImagesF, imgSrcsF, stepImgs]
  | n :: t, st => by
    have ihn := processImagesN_state resolve net n st
    have iht := processImagesF_state resolve net t ((processImagesN resolve net n st).2)
    simp only [processImagesF, imgSrcsF]
    rw [stepImgs_append, ← ihn]
    exact iht
end

/-- One loop iteration neither re-attempts a cached URL nor alters its
record. -/
theorem stepImg_cached (resolve : String → String) (net : String → Nat → Option Resp)
    (src u : String) (r : ImgRecord) (st : ImgState)
    (h : alistFind st.cache u = some r) :
    alistFind (stepImg resolve net src st).cache u = some r ∧
    (stepImg resolve net src st).log.count u = st.log.count u := by
  unfold stepImg
  by_cases hsrc : src = ""
  · simp [hsrc, h]
  · have hne : resolve src ≠ u ∨ alistFind st.cache (resolve src) ≠ none := by
      by_cases he : resolve src = u
      · right; rw [he, h]; simp
      · left; exact he
    cases hcache : alistFind st.cache (resolve src) with
    | some rc => simp [hsrc, hcache, h]
    | none =>
      have hne2 : ¬(u = resolve src) := by
        intro he
        rw [← he, h] at hcache
        cases hcache
      cases hdl : download_image (resolve src)
          (net (resolve src) (st.log.count (resolve src))) with
      | none =>
        simp [hsrc, hcache, hdl, h, List.count_append, List.count_cons, hne2]
      | some dl =>
        constructor
        · simp only [hsrc, hcache, hdl, if_neg]
          exact alistFind_append_left _ _ _ _ h
        · simp [hsrc, hcache, hdl, List.count_append, List.count_cons, hne2]

/-- Iterating the loop preserves cached records and adds no attempts for a
cached URL. -/
theorem stepImgs_cached (resolve : String → String) (net : String → Nat → Option Resp)
    (l : List String) : ∀ (st : ImgState) (u : String) (r : ImgRecord),
    alistFind st.cache u = some r →
    alistFind (stepImgs resolve net l st).cache u = some r ∧
    (stepImgs resolve net l st).log.count u = st.log.count u := by
  induction l with
  | nil => intro st u r h; exact ⟨h, rfl⟩
  | cons s t ih =>
    intro st u r h
    have h1 := stepImg_cached resolve net s u r st h
    have h2 := ih (stepImg resolve net s st) u r h1.1
    exact ⟨h2.1, h2.2.trans h1.2⟩

/-- C1 (amended): the URL cache is consulted before every download
attempt, so once a download for URL `u` has *succeeded*, no later
reference to `u` ever triggers another download attempt and the cached
record never changes.  But a later (cache-hit) `<img>` resolving to `u`
does **not** receive the local name: line 272 assigns the entire cached
record to `src`, serialized as the dict's `str()` — which is never the
cached `images/` local name.  (A *failed* attempt leaves the cache empty
for `u`, so later references retry the download — the claim's
at-most-one-download guarantee does not cover failing sequences.) -/
theorem c1_amended (resolve : String → String) (net : String → Nat → Option Resp)
    (f : Forest) (st : ImgState) (u s : String) (a : List (String × String)) (r : ImgRecord)
    (hcache : alistFind st.cache u = some r)
    (hres : resolve s = u)
    (hsrc : getAttr a "src" = some s)
    (hne : s ≠ "")
    (hfn : strStarts "images/" r.filename = true) :
    alistFind (processImagesF resolve net f st).2.cache u = some r ∧
    (processImagesF resolve net f st).2.log.count u = st.log.count u ∧
    processImagesN resolve net (.elem "img" a []) st =
      (.elem "img" (delAttr (setAttr a "src" (recordStr r)) "srcset") [], st) ∧
    recordStr r ≠ r.filename := by
  have h1 := processImagesF_state resolve net f st
  have h2 := stepImgs_cached resolve net (imgSrcsF f) st u r hcache
  refine ⟨by rw [h1]; exact h2.1, by rw [h1]; exact h2.2, ?_, ?_⟩
  · simp [processImagesN, processImagesF, hsrc, hne, hres, hcache]
  · intro he
    have hrs : strStarts "\x7b\x27filename\x27: " (recordStr r) = true := by
      unfold recordStr
      exact strStarts_append _ _
    have hH := strStarts_head "\x7b\x27filename\x27: " (recordStr r) '\x7b' (by decide) hrs
    have hF := strStarts_head "images/" r.filename 'i' (by decide) hfn
    rw [he, hF] at hH
    exact absurd (Option.some.inj hH) (by decide)

/-- Witness for `c1_amended` at a concrete cached URL. -/
theorem c1_amended_witness :
    alistFind (processImagesF (fun x => x) (fun _ _ => none)
        [.elem "img" [("src", "https://www.ibm.com/think/i.png")] []]
        ⟨[("https://www.ibm.com/think/i.png",
           ⟨"images/img_000000000000.png", [], "image/png"⟩)], []⟩).2.cache
      "https://www.ibm.com/think/i.png" =
      some ⟨"images/img_000000000000.png", [], "image/png"⟩ ∧
    (processImagesF (fun x => x) (fun _ _ => none)
        [.elem "img" [("src", "https://www.ibm.com/think/i.png")] []]
        ⟨[("https://www.ibm.com/think/i.png",
           ⟨"images/img_000000000000.png", [], "image/png"⟩)], []⟩).2.log.count
      "https://www.ibm.com/think/i.png" =
      (ImgState.mk [("https://www.ibm.com/think/i.png",
        ⟨"images/img_000000000000.png", [], "image/png"⟩)] []).log.count
        "https://www.ibm.com/think/i.png" ∧
    processImagesN (fun x => x) (fun _ _ => none)
        (.elem "img" [("src", "https://www.ibm.com/think/i.png")] [])
        ⟨[("https://www.ibm.com/think/i.png",
           ⟨"images/img_000000000000.png", [], "image/png"⟩)], []⟩ =
      (.elem "img" (delAttr (setAttr [("src", "https://www.ibm.com/think/i.png")]
          "src" (recordStr ⟨"images/img_000000000000.png", [], "image/png"⟩)) "srcset") [],
        ⟨[("https://www.ibm.com/think/i.png",
           ⟨"images/img_000000000000.png", [], "image/png"⟩)], []⟩) ∧
    recordStr ⟨"images/img_000000000000.png", [], "image/png"⟩ ≠
      "images/img_000000000000.png" :=
  c1_amended (fun x => x) (fun _ _ => none) _ _ "https://www.ibm.com/think/i.png"
    "https://www.ibm.com/think/i.png" [("src", "https://www.ibm.com/think/i.png")]
    ⟨"images/img_000000000000.png", [], "image/png"⟩ rfl rfl rfl (by decide) (by decide)

/-- C1 counterexample: two references to the same absolute image URL, with
every download attempt failing, perform **two** download attempts (the
attempt log records the URL twice) — after a failed first attempt nothing
is cached, so the second reference triggers a second download. -/
theorem c1_counterexample :
    (processImagesF (fun x => x) (fun _ _ => none)
        [.elem "img" [("src", "https://cdn.example.com/pic.png")] [],
         .elem "img" [("src", "https://cdn.example.com/pic.png")] []]
        ⟨[], []⟩).2 =
      ⟨[], ["https://cdn.example.com/pic.png", "https://cdn.example.com/pic.png"]⟩ := by
  decide

/-! ## Claim C5 (pass-2 link rewriting) -/

/-- C5 counterexample: the chapter map can contain keys that are not
absolute `ibm.com/think` addresses (the driver registers section header
pages under fragment keys).  A link whose address `#frag` *is* a key of
the map is not rewritten to the chapter's file name; it is unwrapped to
plain text (so it is not left in its post-pass-1 state either). -/
theorem c5_counterexample :
    (alistFind [("#frag", "chapter_001.xhtml")] "#frag").isSome = true ∧
    clean_links [.elem "a" [("href", "#frag")] [.text "t"]]
        [("#frag", "chapter_001.xhtml")] = [.text "t"] := by
  decide

/-- C5 (amended): a link with address `u` is rewritten to the mapped file
name iff `u` starts with `http`, contains `ibm.com/think` *and* is a key
of the map; a link that is not rewritten is subjected to the pass-1 rules
again (scheme/marker/relative-`.html` stripping, and fragment-target
validation against the pass-2 document — here a single-anchor document
with no ids), and only otherwise is it left unchanged. -/
theorem c5_amended (m : List (String × String)) (u s : String) :
    clean_links [.elem "a" [("href", u)] [.text s]] m =
      (if rewriteCond m u then
        [.elem "a" [("href", (alistFind m u).getD "")] [.text s]]
      else if stripCond u then [.text s]
      else if strStarts "#" u then [.text s]
      else [.elem "a" [("href", u)] [.text s]]) := by
  by_cases h1 : rewriteCond m u = true
  · simp [clean_links, cleanLinksF, cleanLinksN, hasAttr, getAttr, setAttr, alistSet, h1]
  · rw [Bool.not_eq_true] at h1
    by_cases h2 : stripCond u = true
    · simp [clean_links, cleanLinksF, cleanLinksN, hasAttr, getAttr, h1, h2]
    · rw [Bool.not_eq_true] at h2
      by_cases h3 : strStarts "#" u = true
      · simp [clean_links, cleanLinksF, cleanLinksN, hasAttr, getAttr, hasIdF, hasIdN,
          h1, h2, h3]
      · rw [Bool.not_eq_true] at h3
        simp [clean_links, cleanLinksF, cleanLinksN, hasAttr, getAttr, hasIdF, hasIdN,
          h1, h2, h3]

/-! ## Claim C9 (external links) -/

/-- C9 counterexample: an external hyperlink (an absolute address outside
the guide's site) is left completely unchanged by the link rewriter in
both passes — it is *not* converted to plain text. -/
theorem c9_counterexample :
    clean_links [.elem "a" [("href", "https://example.com/page")] [.text "report"]] [] =
      [.elem "a" [("href", "https://example.com/page")] [.text "report"]] ∧
    clean_links [.elem "a" [("href", "https://example.com/page")] [.text "report"]] [] ≠
      [.text "report"] := by
  decide

/-- C9 (amended): link classification converts to plain text only the
`javascript:`/`mailto:` schemes, addresses containing the `adobe-cms`
broken-link marker, schemeless `.html` addresses and fragment links with
missing targets; every *external* absolute link (starting with `http`,
not containing the marker, and not satisfying the rewrite condition) is
preserved unchanged, in both passes. -/
theorem c9_amended (m : List (String × String)) (ids : String → Bool)
    (a : List (String × String)) (c : Forest) (href : String)
    (hh : getAttr a "href" = some href)
    (h1 : strStarts "http" href = true)
    (h2 : isSub "adobe-cms" href = false)
    (h3 : rewriteCond m href = false) :
    cleanLinksN m ids (.elem "a" a c) = [.elem "a" a (cleanLinksF m ids c)] := by
  have hj : strStarts "javascript:" href = false :=
    strStarts_head_ne "http" "javascript:" href 'h' 'j' rfl rfl (by decide) h1
  have hm : strStarts "mailto:" href = false :=
    strStarts_head_ne "http" "mailto:" href 'h' 'm' rfl rfl (by decide) h1
  have hf : strStarts "#" href = false :=
    strStarts_head_ne "http" "#" href 'h' '#' rfl rfl (by decide) h1
  have hstrip : stripCond href = false := by
    simp [stripCond, hj, hm, h2, h1]
  simp [cleanLinksN, hasAttr, hh, h3, hstrip, hf]

/-- Witness for `c9_amended` on a concrete external link. -/
theorem c9_amended_witness :
    cleanLinksN [] (fun _ => false)
        (.elem "a" [("href", "https://example.com/p")] [.text "x"]) =
      [.elem "a" [("href", "https://example.com/p")]
        (cleanLinksF [] (fun _ => false) [.text "x"])] :=
  c9_amended [] (fun _ => false) [("href", "https://example.com/p")] [.text "x"]
    "https://example.com/p" rfl (by decide) (by decide) (by decide)

/-! ## Claim C8 (TOC filtering) -/

/-- A node all of whose sections keep a link has a non-empty flattening. -/
theorem flattenN_ne_of_haveLinks (n : TocNode) (hn : sectsHaveLinksN n = true) :
    flattenTocN n ≠ [] := by
  cases n with
  | link t u h l => simp [flattenTocN]
  | sect t l c =>
    simp only [sectsHaveLinksN, Bool.and_eq_true] at hn
    simp only [flattenTocN]
    intro he
    rw [he] at hn
    simp [List.isEmpty] at hn

/-- A non-empty forest of link-keeping nodes has a non-empty flattening. -/
theorem flattenF_ne_of_haveLinks (ts : List TocNode) (h : sectsHaveLinksF ts = true)
    (hne : ts ≠ []) : flattenTocF ts ≠ [] := by
  cases ts with
  | nil => exact absurd rfl hne
  | cons n r =>
    simp only [sectsHaveLinksF, Bool.and_eq_true] at h
    simp only [flattenTocF]
    intro he
    exact flattenN_ne_of_haveLinks n h.1 (List.append_eq_nil.mp he).1

mutual
/-- Per-node soundness of `_limit_toc_structure`: a retained node has no
empty sections, every retained section keeps a link descendant, and its
links are exactly the original links with url in the allow-set; a dropped
node has no link with url in the allow-set. -/
theorem limitTocN_sound (S : List String) :
    (n : TocNode) →
      (∀ mm, limitTocN S n = some mm →
        noEmptySectN mm = true ∧ sectsHaveLinksN mm = true ∧
        flattenTocN mm = (flattenTocN n).filter (linkInSet S)) ∧
      (limitTocN S n = none → (flattenTocN n).filter (linkInSet S) = [])
  | .link t u h l => by
    by_cases hu : u ∈ S
    · constructor
      · intro mm hmm
        simp [limitTocN, hu] at hmm
        subst hmm
        refine ⟨rfl, rfl, ?_⟩
        simp [flattenTocN, linkInSet, hu]
      · intro hnone
        simp [limitTocN, hu] at hnone
    · constructor
      · intro mm hmm
        simp [limitTocN, hu] at hmm
      · intro _
        simp [flattenTocN, linkInSet, hu]
  | .sect t l c => by
    have ihc := limitTocF_sound S c
    by_cases hemp : (limitTocF S c).isEmpty = true
    · have hc : limitTocF S c = [] := by
        cases hlim : limitTocF S c with
        | nil => rfl
        | cons x xs => rw [hlim] at hemp; simp [List.isEmpty] at hemp
      constructor
      · intro mm hmm
        simp [limitTocN, hemp] at hmm
      · intro _
        have h3 := ihc.2.2
        rw [hc] at h3
        simp only [flattenTocF] at h3
        simp only [flattenTocN]
        exact h3.symm
    · rw [Bool.not_eq_true] at hemp
      constructor
      · intro mm hmm
        simp only [limitTocN, hemp, Bool.false_eq_true, if_false] at hmm
        cases hmm
        have hcne : limitTocF S c ≠ [] := by
          intro he; rw [he] at hemp; simp [List.isEmpty] at hemp
        have hfl : flattenTocF (limitTocF S c) ≠ [] :=
          flattenF_ne_of_haveLinks _ ihc.2.1 hcne
        have hflb : (flattenTocF (limitTocF S c)).isEmpty = false := by
          cases hfe : flattenTocF (limitTocF S c) with
          | nil => exact absurd hfe hfl
          | cons x xs => simp [List.isEmpty]
        refine ⟨?_, ?_, ?_⟩
        · simp [noEmptySectN, hemp, ihc.1]
        · simp [sectsHaveLinksN, hflb, ihc.2.1]
        · simpa [flattenTocN] using ihc.2.2
      · intro hnone
        simp [limitTocN, hemp] at hnone
/-- Forest soundness of `_limit_toc_structure`. -/
theorem limitTocF_sound (S : List String) :
    (ts : List TocNode) →
      noEmptySectF (limitTocF S ts) = true ∧
      sectsHaveLinksF (limitTocF S ts) = true ∧
      flattenTocF (limitTocF S ts) = (flattenTocF ts).filter (linkInSet S)
  | [] => by simp [limitTocF, noEmptySectF, sectsHaveLinksF, flattenTocF]
  | n :: r => by
    have ihn := limitTocN_sound S n
    have ihr := limitTocF_sound S r
    cases hn : limitTocN S n with
    | some m =>
      have hm := ihn.1 m hn
      refine ⟨?_, ?_, ?_⟩
      · simp [limitTocF, hn, noEmptySectF, hm.1, ihr.1]
      · simp [limitTocF, hn, sectsHaveLinksF, hm.2.1, ihr.2.1]
      · simp only [limitTocF, hn, flattenTocF, List.filter_append]
        rw [hm.2.2, ihr.2.2]
    | none =>
      have hz := ihn.2 hn
      refine ⟨?_, ?_, ?_⟩
      · simp [limitTocF, hn, ihr.1]
      · simp [limitTocF, hn, ihr.2.1]
      · simp only [limitTocF, hn, flattenTocF, List.filter_append]
        rw [hz, ihr.2.2]
        simp
end

/-- C8: for every TOC tree and allow-set `S`, the filtered tree contains
no section with an empty children sequence, every retained section keeps
at least one retained link descendant, and the retained links are exactly
the original links whose url lies in `S` (order preserved). -/
theorem c8_limit_toc (S : List String) (ts : List TocNode) :
    noEmptySectF (limitTocF S ts) = true ∧
    sectsHaveLinksF (limitTocF S ts) = true ∧
    flattenTocF (limitTocF S ts) = (flattenTocF ts).filter (linkInSet S) :=
  limitTocF_sound S ts

/-! ## Claim C4 (idempotence of the structural sanitizer) -/

/-- A MathML fragment: an attributed `mrow` holding an attributed, empty
`mspace`. -/
def c4inp : Forest :=
  [.elem "math" []
    [.elem "mrow" [("mathvariant", "bold")]
      [.elem "mspace" [("width", "1em")] []]]]

/-- `anyElemF` distributes over append. -/
theorem anyElemF_append (p : Node → Bool) (l₁ l₂ : Forest) :
    anyElemF p (l₁ ++ l₂) = (anyElemF p l₁ || anyElemF p l₂) := by
  induction l₁ with
  | nil => simp [anyElemF]
  | cons n t ih => simp [anyElemF, ih, Bool.or_assoc]

/-- `anyElemF` ignores order. -/
theorem anyElemF_reverse (p : Node → Bool) (l : Forest) :
    anyElemF p l.reverse = anyElemF p l := by
  induction l with
  | nil => rfl
  | cons n t ih =>
    rw [List.reverse_cons, anyElemF_append]
    simp [anyElemF, ih, Bool.or_comm]

/-- `sepF` distributes over append. -/
theorem sepF_append (a b : Node → Bool) (l₁ l₂ : Forest) :
    sepF a b (l₁ ++ l₂) = (sepF a b l₁ && sepF a b l₂) := by
  induction l₁ with
  | nil => simp [sepF]
  | cons n t ih => simp [sepF, ih, Bool.and_assoc]

/-- `sepF` ignores order. -/
theorem sepF_reverse (a b : Node → Bool) (l : Forest) :
    sepF a b l.reverse = sepF a b l := by
  induction l with
  | nil => rfl
  | cons n t ih =>
    rw [List.reverse_cons, sepF_append]
    simp [sepF, ih, Bool.and_comm]

mutual
/-- A node with no `a`-element separates `a` from anything. -/
theorem sep_of_noSat_aN (a b : Node → Bool) :
    (n : Node) → anyElemN a n = false → sepN a b n = true
  | .text _, _ => rfl
  | .elem tg ats c, h => by
    simp only [anyElemN, Bool.or_eq_false_iff] at h
    simp only [sepN, h.1, Bool.false_eq_true, if_false, Bool.true_and]
    exact sep_of_noSat_aF a b c h.2
/-- A forest with no `a`-element separates `a` from anything. -/
theorem sep_of_noSat_aF (a b : Node → Bool) :
    (f : Forest) → anyElemF a f = false → sepF a b f = true
  | [], _ => rfl
  | n :: t, h => by
    simp only [anyElemF, Bool.or_eq_false_iff] at h
    simp only [sepF, sep_of_noSat_aN a b n h.1, sep_of_noSat_aF a b t h.2, Bool.and_self]
end

mutual
/-- A node with no `b`-element separates anything from `b`. -/
theorem sep_of_noSat_bN (a b : Node → Bool) :
    (n : Node) → anyElemN b n = false → sepN a b n = true
  | .text _, _ => rfl
  | .elem tg ats c, h => by
    simp only [anyElemN, Bool.or_eq_false_iff] at h
    simp only [sepN, sep_of_noSat_bF a b c h.2, Bool.and_true]
    split
    · simp [h.2]
    · rfl
/-- A forest with no `b`-element separates anything from `b`. -/
theorem sep_of_noSat_bF (a b : Node → Bool) :
    (f : Forest) → anyElemF b f = false → sepF a b f = true
  | [], _ => rfl
  | n :: t, h => by
    simp only [anyElemF, Bool.or_eq_false_iff] at h
    simp only [sepF, sep_of_noSat_bN a b n h.1, sep_of_noSat_bF a b t h.2, Bool.and_self]
end

mutual
/-- A kept node contains no `p`-element after `removeIfN`, for
children-irrelevant `p` false at the root. -/
theorem remIf_noSatN (p : Node → Bool)
    (hpc : ∀ tg ats c c', p (.elem tg ats c) = p (.elem tg ats c')) :
    (n : Node) → p n = false → anyElemN p (removeIfN p n) = false
  | .text _, _ => rfl
  | .elem tg ats c, h => by
    simp only [removeIfN, anyElemN, Bool.or_eq_false_iff]
    exact ⟨(hpc tg ats (removeIfF p c) c).trans h, remIf_noSatF p hpc c⟩
/-- `removeIfF` leaves no `p`-element, for children-irrelevant `p`. -/
theorem remIf_noSatF (p : Node → Bool)
    (hpc : ∀ tg ats c c', p (.elem tg ats c) = p (.elem tg ats c')) :
    (f : Forest) → anyElemF p (removeIfF p f) = false
  | [] => rfl
  | n :: t => by
    cases hpn : p n with
    | true => simp [removeIfF, hpn, remIf_noSatF p hpc t]
    | false =>
      simp only [removeIfF, hpn, Bool.false_eq_true, if_false, anyElemF,
        Bool.or_eq_false_iff]
      exact ⟨remIf_noSatN p hpc n hpn, remIf_noSatF p hpc t⟩
end

mutual
/-- `removeIfN` is the identity on nodes without `p`-elements. -/
theorem remIf_idN (p : Node → Bool) (hpt : ∀ s, p (.text s) = false) :
    (n : Node) → anyElemN p n = false → removeIfN p n = n
  | .text _, _ => rfl
  | .elem tg ats c, h => by
    simp only [anyElemN, Bool.or_eq_false_iff] at h
    simp only [removeIfN]
    rw [remIf_idF p hpt c h.2]
/-- `removeIfF` is the identity on forests without `p`-elements. -/
theorem remIf_idF (p : Node → Bool) (hpt : ∀ s, p (.text s) = false) :
    (f : Forest) → anyElemF p f = false → removeIfF p f = f
  | [], _ => rfl
  | n :: t, h => by
    simp only [anyElemF, Bool.or_eq_false_iff] at h
    have hpn : p n = false := by
      cases n with
      | text s => exact hpt s
      | elem tg ats c =>
        have h1 := h.1
        simp only [anyElemN, Bool.or_eq_false_iff] at h1
        exact h1.1
    simp only [removeIfF, hpn, Bool.false_eq_true, if_false]
    rw [remIf_idN p hpt n h.1, remIf_idF p hpt t h.2]
end

mutual
/-- Removal cannot create `q`-elements (children-irrelevant `q`). -/
theorem remIf_presN (p q : Node → Bool)
    (hqc : ∀ tg ats c c', q (.elem tg ats c) = q (.elem tg ats c')) :
    (n : Node) → anyElemN q n = false → anyElemN q (removeIfN p n) = false
  | .text _, _ => rfl
  | .elem tg ats c, h => by
    simp only [anyElemN, Bool.or_eq_false_iff] at h
    simp only [removeIfN, anyElemN, Bool.or_eq_false_iff]
    exact ⟨(hqc tg ats (removeIfF p c) c).trans h.1, remIf_presF p q hqc c h.2⟩
/-- Forest version of `remIf_presN`. -/
theorem remIf_presF (p q : Node → Bool)
    (hqc : ∀ tg ats c c', q (.elem tg ats c) = q (.elem tg ats c')) :
    (f : Forest) → anyElemF q f = false → anyElemF q (removeIfF p f) = false
  | [], _ => rfl
  | n :: t, h => by
    simp only [anyElemF, Bool.or_eq_false_iff] at h
    cases hpn : p n with
    | true => simp [removeIfF, hpn, remIf_presF p q hqc t h.2]
    | false =>
      simp only [removeIfF, hpn, Bool.false_eq_true, if_false, anyElemF,
        Bool.or_eq_false_iff]
      exact ⟨remIf_presN p q hqc n h.1, remIf_presF p q hqc t h.2⟩
end

mutual
/-- Removal preserves separation facts (children-irrelevant `a`, `b`). -/
theorem remIf_sepN (p a b : Node → Bool)
    (hac : ∀ tg ats c c', a (.elem tg ats c) = a (.elem tg ats c'))
    (hbc : ∀ tg ats c c', b (.elem tg ats c) = b (.elem tg ats c')) :
    (n : Node) → sepN a b n = true → sepN a b (removeIfN p n) = true
  | .text _, _ => rfl
  | .elem tg ats c, h => by
    simp only [sepN, Bool.and_eq_true] at h
    simp only [removeIfN, sepN, Bool.and_eq_true]
    refine ⟨?_, remIf_sepF p a b hac hbc c h.2⟩
    rw [hac tg ats (removeIfF p c) c]
    cases ha : a (.elem tg ats c) with
    | false => simp
    | true =>
      have h1 := h.1
      rw [ha] at h1
      simp only [if_true] at h1
      have hb : anyElemF b c = false := by simpa using h1
      simp [remIf_presF p b hbc c hb]
/-- Forest version of `remIf_sepN`. -/
theorem remIf_sepF (p a b : Node → Bool)
    (hac : ∀ tg ats c c', a (.elem tg ats c) = a (.elem tg ats c'))
    (hbc : ∀ tg ats c c', b (.elem tg ats c) = b (.elem tg ats c')) :
    (f : Forest) → sepF a b f = true → sepF a b (removeIfF p f) = true
  | [], _ => rfl
  | n :: t, h => by
    simp only [sepF, Bool.and_eq_true] at h
    cases hpn : p n with
    | true => simp [removeIfF, hpn, remIf_sepF p a b hac hbc t h.2]
    | false =>
      simp only [removeIfF, hpn, Bool.false_eq_true, if_false, sepF, Bool.and_eq_true]
      exact ⟨remIf_sepN p a b hac hbc n h.1, remIf_sepF p a b hac hbc t h.2⟩
end

mutual
/-- The node found by `findFirstN` inherits a no-`q` fact. -/
theorem findFirst_noSatN (pf q : Node → Bool) :
    (n : Node) → (d : Node) → anyElemN q n = false → findFirstN pf n = some d →
      anyElemN q d = false
  | .text _, _, _, hfind => by simp [findFirstN] at hfind
  | .elem tg ats c, d, h, hfind => by
    simp only [findFirstN] at hfind
    cases hpf : pf (.elem tg ats c) with
    | true =>
      rw [hpf] at hfind
      simp only [if_true] at hfind
      cases hfind
      exact h
    | false =>
      rw [hpf] at hfind
      simp only [Bool.false_eq_true, if_false] at hfind
      simp only [anyElemN, Bool.or_eq_false_iff] at h
      exact findFirst_noSatF pf q c d h.2 hfind
/-- The node found by `findFirstF` inherits a no-`q` fact. -/
theorem findFirst_noSatF (pf q : Node → Bool) :
    (f : Forest) → (d : Node) → anyElemF q f = false → findFirstF pf f = some d →
      anyElemN q d = false
  | [], _, _, hfind => by simp [findFirstF] at hfind
  | n :: t, d, h, hfind => by
    simp only [findFirstF] at hfind
    simp only [anyElemF, Bool.or_eq_false_iff] at h
    cases hfn : findFirstN pf n with
    | some m =>
      rw [hfn] at hfind
      cases hfind
      exact findFirst_noSatN pf q n d h.1 hfn
    | none =>
      rw [hfn] at hfind
      exact findFirst_noSatF pf q t d h.2 hfind
end

mutual
/-- The node found by `findFirstN` inherits a separation fact. -/
theorem findFirst_sepN (pf a b : Node → Bool) :
    (n : Node) → (d : Node) → sepN a b n = true → findFirstN pf n = some d →
      sepN a b d = true
  | .text _, _, _, hfind => by simp [findFirstN] at hfind
  | .elem tg ats c, d, h, hfind => by
    simp only [findFirstN] at hfind
    cases hpf : pf (.elem tg ats c) with
    | true =>
      rw [hpf] at hfind
      simp only [if_true] at hfind
      cases hfind
      exact h
    | false =>
      rw [hpf] at hfind
      simp only [Bool.false_eq_true, if_false] at hfind
      simp only [sepN, Bool.and_eq_true] at h
      exact findFirst_sepF pf a b c d h.2 hfind
/-- The node found by `findFirstF` inherits a separation fact. -/
theorem findFirst_sepF (pf a b : Node → Bool) :
    (f : Forest) → (d : Node) → sepF a b f = true → findFirstF pf f = some d →
      sepN a b d = true
  | [], _, _, hfind => by simp [findFirstF] at hfind
  | n :: t, d, h, hfind => by
    simp only [findFirstF] at hfind
    simp only [sepF, Bool.and_eq_true] at h
    cases hfn : findFirstN pf n with
    | some m =>
      rw [hfn] at hfind
      cases hfind
      exact findFirst_sepN pf a b n d h.1 hfn
    | none =>
      rw [hfn] at hfind
      exact findFirst_sepF pf a b t d h.2 hfind
end

mutual
/-- `findFirstN` finds nothing in a node with no `pf`-element. -/
theorem findFirst_noneN (pf : Node → Bool) :
    (n : Node) → anyElemN pf n = false → findFirstN pf n = none
  | .text _, _ => rfl
  | .elem tg ats c, h => by
    simp only [anyElemN, Bool.or_eq_false_iff] at h
    simp only [findFirstN, h.1, Bool.false_eq_true, if_false]
    exact findFirst_noneF pf c h.2
/-- `findFirstF` finds nothing in a forest with no `pf`-element. -/
theorem findFirst_noneF (pf : Node → Bool) :
    (f : Forest) → anyElemF pf f = false → findFirstF pf f = none
  | [], _ => rfl
  | n :: t, h => by
    simp only [anyElemF, Bool.or_eq_false_iff] at h
    simp only [findFirstF, findFirst_noneN pf n h.1]
    exact findFirst_noneF pf t h.2
end

/-- `find?` by key through a key-based filter. -/
theorem find_filterKey (pr : String → Bool) (a : List (String × String)) (k : String) :
    (a.filter (fun kv => pr kv.1)).find? (fun kv => kv.1 == k) =
      if pr k = true then a.find? (fun kv => kv.1 == k) else none := by
  induction a with
  | nil => by_cases hp : pr k = true <;> simp [hp]
  | cons kv t ih =>
    rw [List.filter_cons]
    by_cases hk : kv.1 = k
    · by_cases hp : pr kv.1 = true
      · have hpk : pr k = true := hk ▸ hp
        rw [if_pos hp, if_pos hpk]
        rw [List.find?_cons_of_pos _ (by simp [hk]), List.find?_cons_of_pos _ (by simp [hk])]
      · rw [Bool.not_eq_true] at hp
        have hpk : pr k = false := hk ▸ hp
        rw [if_neg (by simp [hp]), if_neg (by simp [hpk]), ih, if_neg (by simp [hpk])]
    · by_cases hp : pr kv.1 = true
      · rw [if_pos hp, List.find?_cons_of_neg _ (by simp [hk]), ih]
        by_cases hpk : pr k = true
        · rw [if_pos hpk, if_pos hpk, List.find?_cons_of_neg _ (by simp [hk])]
        · rw [if_neg hpk, if_neg hpk]
      · rw [Bool.not_eq_true] at hp
        rw [if_neg (by simp [hp]), ih]
        by_cases hpk : pr k = true
        · rw [if_pos hpk, if_pos hpk, List.find?_cons_of_neg _ (by simp [hk])]
        · rw [if_neg hpk, if_neg hpk]

/-- Attribute lookup through a key-based filter. -/
theorem getAttr_filterKey (pr : String → Bool) (a : List (String × String)) (k : String) :
    getAttr (a.filter (fun kv => pr kv.1)) k = if pr k = true then getAttr a k else none := by
  unfold getAttr
  rw [find_filterKey]
  by_cases hpk : pr k = true
  · rw [if_pos hpk, if_pos hpk]
  · rw [if_neg hpk, if_neg hpk]; rfl

/-- Attribute lookup after deleting another (or the same) key. -/
theorem getAttr_delAttr (a : List (String × String)) (k k' : String) :
    getAttr (delAttr a k') k = if (k == k') = false then getAttr a k else none := by
  have h := getAttr_filterKey (fun key => !(key == k')) a k
  simpa [delAttr] using h

mutual
/-- Weakening: no `p`-element implies no `q`-element when `q` implies `p`. -/
theorem anyElem_impN (p q : Node → Bool) (himp : ∀ n, q n = true → p n = true) :
    (n : Node) → anyElemN p n = false → anyElemN q n = false
  | .text _, _ => rfl
  | .elem tg ats c, h => by
    simp only [anyElemN, Bool.or_eq_false_iff] at h ⊢
    refine ⟨?_, anyElem_impF p q himp c h.2⟩
    cases hq : q (.elem tg ats c) with
    | false => rfl
    | true =>
      have hp := himp _ hq
      rw [h.1] at hp
      exact absurd hp (by decide)
/-- Forest version of `anyElem_impN`. -/
theorem anyElem_impF (p q : Node → Bool) (himp : ∀ n, q n = true → p n = true) :
    (f : Forest) → anyElemF p f = false → anyElemF q f = false
  | [], _ => rfl
  | n :: t, h => by
    simp only [anyElemF, Bool.or_eq_false_iff] at h ⊢
    exact ⟨anyElem_impN p q himp n h.1, anyElem_impF p q himp t h.2⟩
end

/-- The MathML pass is the identity on math-free inputs, for any fuel. -/
theorem mc_id (fuel : Nat) :
    (∀ n, anyElemN (isTagP "math") n = false → mcN fuel n = n) ∧
    (∀ f, anyElemF (isTagP "math") f = false → mcF fuel f = f) := by
  induction fuel with
  | zero => exact ⟨fun n _ => rfl, fun f _ => rfl⟩
  | succ k ih =>
    constructor
    · intro n hn
      cases n with
      | text s => rfl
      | elem tg ats c =>
        simp only [anyElemN, Bool.or_eq_false_iff] at hn
        have htg : ¬(tg = "math") := by
          intro he
          have h1 := hn.1
          rw [he] at h1
          simp [isTagP] at h1
        simp only [mcN]
        rw [if_neg htg, ih.2 c hn.2]
    · intro f hf
      cases f with
      | nil => rfl
      | cons n t =>
        simp only [anyElemF, Bool.or_eq_false_iff] at hf
        simp only [mcF]
        rw [ih.1 n hf.1, ih.2 t hf.2]

mutual
/-- Bundle the five removed-tag facts into `removedTagsQ`. -/
theorem removedTags_noSatN :
    (n : Node) → anyElemN (isTagP "svg") n = false → anyElemN (isTagP "math") n = false →
      anyElemN (isTagP "iframe") n = false → anyElemN isMediaP n = false →
      anyElemN (isTagP "script") n = false → anyElemN removedTagsQ n = false
  | .text _, _, _, _, _, _ => rfl
  | .elem tg ats c, h1, h2, h3, h4, h5 => by
    simp only [anyElemN, Bool.or_eq_false_iff] at h1 h2 h3 h4 h5 ⊢
    exact ⟨by simp [removedTagsQ, h1.1, h2.1, h3.1, h4.1, h5.1],
      removedTags_noSatF c h1.2 h2.2 h3.2 h4.2 h5.2⟩
/-- Forest version of `removedTags_noSatN`. -/
theorem removedTags_noSatF :
    (f : Forest) → anyElemF (isTagP "svg") f = false → anyElemF (isTagP "math") f = false →
      anyElemF (isTagP "iframe") f = false → anyElemF isMediaP f = false →
      anyElemF (isTagP "script") f = false → anyElemF removedTagsQ f = false
  | [], _, _, _, _, _ => rfl
  | n :: t, h1, h2, h3, h4, h5 => by
    simp only [anyElemF, Bool.or_eq_false_iff] at h1 h2 h3 h4 h5 ⊢
    exact ⟨removedTags_noSatN n h1.1 h2.1 h3.1 h4.1 h5.1,
      removedTags_noSatF t h1.2 h2.2 h3.2 h4.2 h5.2⟩
end

mutual
/-- Bundle the seven elimination facts into `cleanQ`. -/
theorem cleanQ_noSatN :
    (n : Node) → anyElemN removedTagsQ n = false →
      anyElemN (isTagP "cds-code-snippet") n = false → anyElemN badTableQ n = false →
      anyElemN (isTagP "picture") n = false → anyElemN badImg n = false →
      anyElemN badStylesheet n = false → anyElemN badRemoteSrc n = false →
      anyElemN cleanQ n = false
  | .text _, _, _, _, _, _, _, _ => rfl
  | .elem tg ats c, h1, h2, h3, h4, h5, h6, h7 => by
    simp only [anyElemN, Bool.or_eq_false_iff] at h1 h2 h3 h4 h5 h6 h7 ⊢
    exact ⟨by simp [cleanQ, h1.1, h2.1, h3.1, h4.1, h5.1, h6.1, h7.1],
      cleanQ_noSatF c h1.2 h2.2 h3.2 h4.2 h5.2 h6.2 h7.2⟩
/-- Forest version of `cleanQ_noSatN`. -/
theorem cleanQ_noSatF :
    (f : Forest) → anyElemF removedTagsQ f = false →
      anyElemF (isTagP "cds-code-snippet") f = false → anyElemF badTableQ f = false →
      anyElemF (isTagP "picture") f = false → anyElemF badImg f = false →
      anyElemF badStylesheet f = false → anyElemF badRemoteSrc f = false →
      anyElemF cleanQ f = false
  | [], _, _, _, _, _, _, _ => rfl
  | n :: t, h1, h2, h3, h4, h5, h6, h7 => by
    simp only [anyElemF, Bool.or_eq_false_iff] at h1 h2 h3 h4 h5 h6 h7 ⊢
    exact ⟨cleanQ_noSatN n h1.1 h2.1 h3.1 h4.1 h5.1 h6.1 h7.1,
      cleanQ_noSatF t h1.2 h2.2 h3.2 h4.2 h5.2 h6.2 h7.2⟩
end

mutual
/-- The code-snippet pass leaves no `cds-code-snippet` element. -/
theorem codeSnippet_noSatN :
    (n : Node) → anyElemN (isTagP "cds-code-snippet") (codeSnippetN n) = false
  | .text _ => rfl
  | .elem tg ats c => by
    simp only [codeSnippetN]
    by_cases htg : tg = "cds-code-snippet"
    · rw [if_pos htg]
      by_cases hm : (getAttr ats "type").getD "inline" = "multi"
      · rw [if_pos hm]; rfl
      · rw [if_neg hm]; rfl
    · rw [if_neg htg]
      simp only [anyElemN, Bool.or_eq_false_iff]
      refine ⟨?_, codeSnippet_noSatF c⟩
      simp [isTagP, htg]
/-- Forest version of `codeSnippet_noSatN`. -/
theorem codeSnippet_noSatF :
    (f : Forest) → anyElemF (isTagP "cds-code-snippet") (codeSnippetF f) = false
  | [] => rfl
  | n :: t => by
    simp only [codeSnippetF, anyElemF, Bool.or_eq_false_iff]
    exact ⟨codeSnippet_noSatN n, codeSnippet_noSatF t⟩
end

mutual
/-- The code-snippet pass cannot create `q`-elements (children-irrelevant
`q`, false on the created `pre`/`code` nodes). -/
theorem codeSnippet_presN (q : Node → Bool)
    (hqc : ∀ tg ats c c', q (.elem tg ats c) = q (.elem tg ats c'))
    (hpre : ∀ c, q (.elem "pre" [] c) = false)
    (hcode : ∀ c, q (.elem "code" [] c) = false) :
    (n : Node) → anyElemN q n = false → anyElemN q (codeSnippetN n) = false
  | .text _, _ => rfl
  | .elem tg ats c, h => by
    simp only [anyElemN, Bool.or_eq_false_iff] at h
    simp only [codeSnippetN]
    by_cases htg : tg = "cds-code-snippet"
    · rw [if_pos htg]
      by_cases hm : (getAttr ats "type").getD "inline" = "multi"
      · rw [if_pos hm]
        simp [anyElemN, anyElemF, hpre, hcode]
      · rw [if_neg hm]
        simp [anyElemN, anyElemF, hcode]
    · rw [if_neg htg]
      simp only [anyElemN, Bool.or_eq_false_iff]
      exact ⟨(hqc tg ats (codeSnippetF c) c).trans h.1,
        codeSnippet_presF q hqc hpre hcode c h.2⟩
/-- Forest version of `codeSnippet_presN`. -/
theorem codeSnippet_presF (q : Node → Bool)
    (hqc : ∀ tg ats c c', q (.elem tg ats c) = q (.elem tg ats c'))
    (hpre : ∀ c, q (.elem "pre" [] c) = false)
    (hcode : ∀ c, q (.elem "code" [] c) = false) :
    (f : Forest) → anyElemF q f = false → anyElemF q (codeSnippetF f) = false
  | [], _ => rfl
  | n :: t, h => by
    simp only [anyElemF, Bool.or_eq_false_iff] at h
    simp only [codeSnippetF, anyElemF, Bool.or_eq_false_iff]
    exact ⟨codeSnippet_presN q hqc hpre hcode n h.1,
      codeSnippet_presF q hqc hpre hcode t h.2⟩
end

mutual
/-- The code-snippet pass is the identity without `cds-code-snippet`. -/
theorem codeSnippet_idN :
    (n : Node) → anyElemN (isTagP "cds-code-snippet") n = false → codeSnippetN n = n
  | .text _, _ => rfl
  | .elem tg ats c, h => by
    simp only [anyElemN, Bool.or_eq_false_iff] at h
    have htg : ¬(tg = "cds-code-snippet") := by
      intro he
      have h1 := h.1
      rw [he] at h1
      simp [isTagP] at h1
    simp only [codeSnippetN]
    rw [if_neg htg, codeSnippet_idF c h.2]
/-- Forest version of `codeSnippet_idN`. -/
theorem codeSnippet_idF :
    (f : Forest) → anyElemF (isTagP "cds-code-snippet") f = false → codeSnippetF f = f
  | [], _ => rfl
  | n :: t, h => by
    simp only [anyElemF, Bool.or_eq_false_iff] at h
    simp only [codeSnippetF]
    rw [codeSnippet_idN n h.1, codeSnippet_idF t h.2]
end

mutual
/-- Attribute transforms cannot create `q`-elements, given per-node
stability of `q` under the transform. -/
theorem attrMap_presN (g : String → List (String × String) → List (String × String))
    (q : Node → Bool)
    (hqg : ∀ tg ats c, q (.elem tg ats c) = false →
      q (.elem tg (g tg ats) (attrMapF g c)) = false) :
    (n : Node) → anyElemN q n = false → anyElemN q (attrMapN g n) = false
  | .text _, _ => rfl
  | .elem tg ats c, h => by
    simp only [anyElemN, Bool.or_eq_false_iff] at h
    simp only [attrMapN, anyElemN, Bool.or_eq_false_iff]
    exact ⟨hqg tg ats c h.1, attrMap_presF g q hqg c h.2⟩
/-- Forest version of `attrMap_presN`. -/
theorem attrMap_presF (g : String → List (String × String) → List (String × String))
    (q : Node → Bool)
    (hqg : ∀ tg ats c, q (.elem tg ats c) = false →
      q (.elem tg (g tg ats) (attrMapF g c)) = false) :
    (f : Forest) → anyElemF q f = false → anyElemF q (attrMapF g f) = false
  | [], _ => rfl
  | n :: t, h => by
    simp only [anyElemF, Bool.or_eq_false_iff] at h
    simp only [attrMapF, anyElemF, Bool.or_eq_false_iff]
    exact ⟨attrMap_presN g q hqg n h.1, attrMap_presF g q hqg t h.2⟩
end

mutual
/-- Attribute transforms preserve separation of tag-only predicates. -/
theorem attrMap_sepN (g : String → List (String × String) → List (String × String))
    (a b : Node → Bool)
    (hat : ∀ tg x c y c', a (.elem tg x c) = a (.elem tg y c'))
    (hbt : ∀ tg x c y c', b (.elem tg x c) = b (.elem tg y c')) :
    (n : Node) → sepN a b n = true → sepN a b (attrMapN g n) = true
  | .text _, _ => rfl
  | .elem tg ats c, h => by
    simp only [sepN, Bool.and_eq_true] at h
    simp only [attrMapN, sepN, Bool.and_eq_true]
    refine ⟨?_, attrMap_sepF g a b hat hbt c h.2⟩
    rw [hat tg (g tg ats) (attrMapF g c) ats c]
    cases ha : a (.elem tg ats c) with
    | false => simp
    | true =>
      have h1 := h.1
      rw [ha] at h1
      simp only [if_true] at h1
      have hb : anyElemF b c = false := by simpa using h1
      have hb2 : anyElemF b (attrMapF g c) = false :=
        attrMap_presF g b
          (fun tg2 x c2 hq => ((hbt tg2 (g tg2 x) (attrMapF g c2) x c2).trans hq)) c hb
      simp [hb2]
/-- Forest version of `attrMap_sepN`. -/
theorem attrMap_sepF (g : String → List (String × String) → List (String × String))
    (a b : Node → Bool)
    (hat : ∀ tg x c y c', a (.elem tg x c) = a (.elem tg y c'))
    (hbt : ∀ tg x c y c', b (.elem tg x c) = b (.elem tg y c')) :
    (f : Forest) → sepF a b f = true → sepF a b (attrMapF g f) = true
  | [], _ => rfl
  | n :: t, h => by
    simp only [sepF, Bool.and_eq_true] at h
    simp only [attrMapF, sepF, Bool.and_eq_true]
    exact ⟨attrMap_sepN g a b hat hbt n h.1, attrMap_sepF g a b hat hbt t h.2⟩
end

mutual
/-- Attribute transforms do not change the stripped text. -/
theorem attrMap_textStripN (g : String → List (String × String) → List (String × String)) :
    (n : Node) → textStripN (attrMapN g n) = textStripN n
  | .text _ => rfl
  | .elem tg ats c => by
    simp only [attrMapN, textStripN]
    exact attrMap_textStripF g c
/-- Forest version of `attrMap_textStripN`. -/
theorem attrMap_textStripF (g : String → List (String × String) → List (String × String)) :
    (f : Forest) → textStripF (attrMapF g f) = textStripF f
  | [] => rfl
  | n :: t => by
    simp only [attrMapF, textStripF]
    rw [attrMap_textStripN g n, attrMap_textStripF g t]
end

mutual
/-- Attribute transforms do not change tag occurrence. -/
theorem attrMap_anyTagN (g : String → List (String × String) → List (String × String))
    (t : String) : (n : Node) → anyElemN (isTagP t) (attrMapN g n) = anyElemN (isTagP t) n
  | .text _ => rfl
  | .elem tg ats c => by
    simp only [attrMapN, anyElemN, isTagP]
    rw [attrMap_anyTagF g t c]
/-- Forest version of `attrMap_anyTagN`. -/
theorem attrMap_anyTagF (g : String → List (String × String) → List (String × String))
    (t : String) : (f : Forest) → anyElemF (isTagP t) (attrMapF g f) = anyElemF (isTagP t) f
  | [] => rfl
  | n :: nt => by
    simp only [attrMapF, anyElemF]
    rw [attrMap_anyTagN g t n, attrMap_anyTagF g t nt]
end

/-- Deleting an absent attribute is a no-op. -/
theorem delAttr_id (a : List (String × String)) (k : String) (h : hasAttr a k = false) :
    delAttr a k = a := by
  have hf : a.find? (fun kv => kv.1 == k) = none := by
    unfold hasAttr getAttr at h
    cases hfa : a.find? (fun kv => kv.1 == k) with
    | none => rfl
    | some x => rw [hfa] at h; simp at h
  have hall := List.find?_eq_none.mp hf
  unfold delAttr
  apply List.filter_eq_self.mpr
  intro kv hmem
  simp [hall kv hmem]

/-- Filtering by the negation of `pr` leaves nothing satisfying `pr`. -/
theorem filter_not_any {α : Type} (l : List α) (pr : α → Bool) :
    (l.filter (fun x => !pr x)).any pr = false := by
  induction l with
  | nil => rfl
  | cons x t ih =>
    rw [List.filter_cons]
    cases hx : pr x with
    | true => simpa [hx] using ih
    | false => simpa [List.any_cons, hx] using ih

mutual
/-- The table-attribute pass leaves no table with deprecated attributes. -/
theorem tableFix_noSatN : (n : Node) → anyElemN badTableQ (attrMapN tableAttrFix n) = false
  | .text _ => rfl
  | .elem tg ats c => by
    simp only [attrMapN, anyElemN, Bool.or_eq_false_iff]
    refine ⟨?_, tableFix_noSatF c⟩
    by_cases htg : tg = "table"
    · subst htg
      simp only [badTableQ, tableAttrFix, if_pos rfl]
      have h1 : hasAttr (delAttr (delAttr (delAttr ats "cellpadding") "cellspacing")
          "border") "cellpadding" = false := by
        simp [hasAttr, getAttr_delAttr]
      have h2 : hasAttr (delAttr (delAttr (delAttr ats "cellpadding") "cellspacing")
          "border") "cellspacing" = false := by
        simp [hasAttr, getAttr_delAttr]
      have h3 : hasAttr (delAttr (delAttr (delAttr ats "cellpadding") "cellspacing")
          "border") "border" = false := by
        simp [hasAttr, getAttr_delAttr]
      simp [h1, h2, h3]
    · simp [badTableQ, tableAttrFix, htg]
/-- Forest version of `tableFix_noSatN`. -/
theorem tableFix_noSatF : (f : Forest) → anyElemF badTableQ (attrMapF tableAttrFix f) = false
  | [] => rfl
  | n :: t => by
    simp only [attrMapF, anyElemF, Bool.or_eq_false_iff]
    exact ⟨tableFix_noSatN n, tableFix_noSatF t⟩
end

mutual
/-- The table-attribute pass is the identity without deprecated attributes. -/
theorem tableFix_idN : (n : Node) → anyElemN badTableQ n = false → attrMapN tableAttrFix n = n
  | .text _, _ => rfl
  | .elem tg ats c, h => by
    simp only [anyElemN, Bool.or_eq_false_iff] at h
    simp only [attrMapN]
    rw [tableFix_idF c h.2]
    by_cases htg : tg = "table"
    · subst htg
      have h1 := h.1
      simp only [badTableQ] at h1
      have h2 : (hasAttr ats "cellpadding" || hasAttr ats "cellspacing" ||
          hasAttr ats "border") = false := by
        simpa using h1
      simp only [Bool.or_eq_false_iff] at h2
      simp only [tableAttrFix, if_pos rfl]
      rw [delAttr_id ats "cellpadding" h2.1.1, delAttr_id ats "cellspacing" h2.1.2,
        delAttr_id ats "border" h2.2]
      simp
    · simp [tableAttrFix, htg]
/-- Forest version of `tableFix_idN`. -/
theorem tableFix_idF : (f : Forest) → anyElemF badTableQ f = false → attrMapF tableAttrFix f = f
  | [], _ => rfl
  | n :: t, h => by
    simp only [anyElemF, Bool.or_eq_false_iff] at h
    simp only [attrMapF]
    rw [tableFix_idN n h.1, tableFix_idF t h.2]
end

mutual
/-- The attribute-strip pass leaves no invalid attribute. -/
theorem invalidFix_noSatN : (n : Node) → anyElemN attrsBadQ (attrMapN invalidAttrFix n) = false
  | .text _ => rfl
  | .elem tg ats c => by
    simp only [attrMapN, anyElemN, Bool.or_eq_false_iff]
    refine ⟨?_, invalidFix_noSatF c⟩
    simp only [attrsBadQ, invalidAttrFix]
    exact filter_not_any ats (fun kv => invalidAttr kv.1)
/-- Forest version of `invalidFix_noSatN`. -/
theorem invalidFix_noSatF : (f : Forest) → anyElemF attrsBadQ (attrMapF invalidAttrFix f) = false
  | [] => rfl
  | n :: t => by
    simp only [attrMapF, anyElemF, Bool.or_eq_false_iff]
    exact ⟨invalidFix_noSatN n, invalidFix_noSatF t⟩
end

mutual
/-- The attribute-strip pass is the identity without invalid attributes. -/
theorem invalidFix_idN : (n : Node) → anyElemN attrsBadQ n = false → attrMapN invalidAttrFix n = n
  | .text _, _ => rfl
  | .elem tg ats c, h => by
    simp only [anyElemN, Bool.or_eq_false_iff] at h
    simp only [attrMapN]
    rw [invalidFix_idF c h.2]
    have h1 := h.1
    simp only [attrsBadQ] at h1
    have hall : ∀ kv ∈ ats, (!invalidAttr kv.1) = true := by
      intro kv hmem
      have h2 := List.any_eq_false.mp h1 kv hmem
      simp [h2]
    simp only [invalidAttrFix]
    rw [List.filter_eq_self.mpr hall]
/-- Forest version of `invalidFix_idN`. -/
theorem invalidFix_idF : (f : Forest) → anyElemF attrsBadQ f = false → attrMapF invalidAttrFix f = f
  | [], _ => rfl
  | n :: t, h => by
    simp only [anyElemF, Bool.or_eq_false_iff] at h
    simp only [attrMapF]
    rw [invalidFix_idN n h.1, invalidFix_idF t h.2]
end

/-- A heading tag is not an inline tag. -/
theorem head_not_inline (t : String) (h : isHeadingTag t = true) : isInlineTag t = false := by
  simp only [isHeadingTag, Bool.or_eq_true, beq_iff_eq] at h
  rcases h with ((((h | h) | h) | h) | h) | h <;> subst h <;> decide

/-- An inline tag is not a heading tag. -/
theorem inline_not_head (t : String) (h : isInlineTag t = true) : isHeadingTag t = false := by
  simp only [isInlineTag, Bool.or_eq_true, beq_iff_eq] at h
  rcases h with ((((((h | h) | h) | h) | h) | h) | h) | h <;> subst h <;> decide

/-- A list tag is not a heading tag. -/
theorem list_not_head (t : String) (h : isListTag t = true) : isHeadingTag t = false := by
  simp only [isListTag, Bool.or_eq_true, beq_iff_eq] at h
  rcases h with h | h <;> subst h <;> decide

/-- A list tag is not an inline tag. -/
theorem list_not_inline (t : String) (h : isListTag t = true) : isInlineTag t = false := by
  simp only [isListTag, Bool.or_eq_true, beq_iff_eq] at h
  rcases h with h | h <;> subst h <;> decide

mutual
/-- If `findFirstN` finds nothing then no element satisfies `pf`. -/
theorem noSat_of_ffNoneN (pf : Node → Bool) :
    (n : Node) → findFirstN pf n = none → anyElemN pf n = false
  | .text _, _ => rfl
  | .elem tg ats c, h => by
    simp only [findFirstN] at h
    cases hpf : pf (.elem tg ats c) with
    | true => rw [hpf] at h; simp at h
    | false =>
      rw [hpf] at h
      simp only [Bool.false_eq_true, if_false] at h
      simp only [anyElemN, hpf, Bool.false_or]
      exact noSat_of_ffNoneF pf c h
/-- If `findFirstF` finds nothing then no element satisfies `pf`. -/
theorem noSat_of_ffNoneF (pf : Node → Bool) :
    (f : Forest) → findFirstF pf f = none → anyElemF pf f = false
  | [], _ => rfl
  | n :: t, h => by
    simp only [findFirstF] at h
    cases hfn : findFirstN pf n with
    | some m => rw [hfn] at h; simp at h
    | none =>
      rw [hfn] at h
      simp only [anyElemF, Bool.or_eq_false_iff]
      exact ⟨noSat_of_ffNoneN pf n hfn, noSat_of_ffNoneF pf t h⟩
end

mutual
/-- The picture pass leaves no `picture` element. -/
theorem picClean_noSatN : (n : Node) → anyElemF (isTagP "picture") (pictureCleanN n) = false
  | .text _ => rfl
  | .elem tg ats c => by
    simp only [pictureCleanN]
    by_cases htg : tg = "picture"
    · rw [if_pos htg]
      cases hfi : findFirstF (isTagP "img") (pictureCleanF c) with
      | none => simp [anyElemF]
      | some i =>
        show anyElemF (isTagP "picture") [i] = false
        have hi : anyElemN (isTagP "picture") i = false :=
          findFirst_noSatF (isTagP "img") (isTagP "picture") (pictureCleanF c) i
            (picClean_noSatF c) hfi
        simp [anyElemF, hi]
    · rw [if_neg htg]
      simp only [anyElemF, anyElemN, Bool.or_eq_false_iff]
      refine ⟨⟨?_, picClean_noSatF c⟩, trivial⟩
      simp [isTagP, htg]
/-- Forest version of `picClean_noSatN`. -/
theorem picClean_noSatF : (f : Forest) → anyElemF (isTagP "picture") (pictureCleanF f) = false
  | [] => rfl
  | n :: t => by
    simp only [pictureCleanF, anyElemF_append, Bool.or_eq_false_iff]
    exact ⟨picClean_noSatN n, picClean_noSatF t⟩
end

mutual
/-- The picture pass cannot create `q`-elements (children-irrelevant `q`). -/
theorem picClean_presN (q : Node → Bool)
    (hqc : ∀ tg ats c c', q (.elem tg ats c) = q (.elem tg ats c')) :
    (n : Node) → anyElemN q n = false → anyElemF q (pictureCleanN n) = false
  | .text _, _ => rfl
  | .elem tg ats c, h => by
    simp only [anyElemN, Bool.or_eq_false_iff] at h
    simp only [pictureCleanN]
    by_cases htg : tg = "picture"
    · rw [if_pos htg]
      cases hfi : findFirstF (isTagP "img") (pictureCleanF c) with
      | none => simp [anyElemF]
      | some i =>
        show anyElemF q [i] = false
        have hi : anyElemN q i = false :=
          findFirst_noSatF (isTagP "img") q (pictureCleanF c) i
            (picClean_presF q hqc c h.2) hfi
        simp [anyElemF, hi]
    · rw [if_neg htg]
      simp only [anyElemF, anyElemN, Bool.or_eq_false_iff]
      exact ⟨⟨(hqc tg ats (pictureCleanF c) c).trans h.1, picClean_presF q hqc c h.2⟩, trivial⟩
/-- Forest version of `picClean_presN`. -/
theorem picClean_presF (q : Node → Bool)
    (hqc : ∀ tg ats c c', q (.elem tg ats c) = q (.elem tg ats c')) :
    (f : Forest) → anyElemF q f = false → anyElemF q (pictureCleanF f) = false
  | [], _ => rfl
  | n :: t, h => by
    simp only [anyElemF, Bool.or_eq_false_iff] at h
    simp only [pictureCleanF, anyElemF_append, Bool.or_eq_false_iff]
    exact ⟨picClean_presN q hqc n h.1, picClean_presF q hqc t h.2⟩
end

mutual
/-- The picture pass is the identity without `picture` elements. -/
theorem picClean_idN : (n : Node) → anyElemN (isTagP "picture") n = false →
    pictureCleanN n = [n]
  | .text _, _ => rfl
  | .elem tg ats c, h => by
    simp only [anyElemN, Bool.or_eq_false_iff] at h
    have htg : ¬(tg = "picture") := by
      intro he
      have h1 := h.1
      rw [he] at h1
      simp [isTagP] at h1
    simp only [pictureCleanN]
    rw [if_neg htg, picClean_idF c h.2]
/-- Forest version of `picClean_idN`. -/
theorem picClean_idF : (f : Forest) → anyElemF (isTagP "picture") f = false →
    pictureCleanF f = f
  | [], _ => rfl
  | n :: t, h => by
    simp only [anyElemF, Bool.or_eq_false_iff] at h
    simp only [pictureCleanF]
    rw [picClean_idN n h.1, picClean_idF t h.2]
    rfl
end

mutual
/-- The nested-heading pass cannot create `q`-elements. -/
theorem fixHead_presN (q : Node → Bool)
    (hqc : ∀ tg ats c c', q (.elem tg ats c) = q (.elem tg ats c')) :
    (n : Node) → anyElemN q n = false → anyElemN q (fixNestedHeadN n) = false
  | .text _, _ => rfl
  | .elem tg ats c, h => by
    simp only [anyElemN, Bool.or_eq_false_iff] at h
    have hc' : anyElemF q (fixNestedHeadF c) = false := fixHead_presF q hqc c h.2
    simp only [fixNestedHeadN]
    by_cases htg : isHeadingTag tg = true
    · rw [if_pos htg]
      cases hfi : findFirstF headP (fixNestedHeadF c) with
      | some d =>
        show anyElemN q d = false
        exact findFirst_noSatF headP q (fixNestedHeadF c) d hc' hfi
      | none =>
        show anyElemN q (.elem tg ats (fixNestedHeadF c)) = false
        simp only [anyElemN, Bool.or_eq_false_iff]
        exact ⟨(hqc tg ats (fixNestedHeadF c) c).trans h.1, hc'⟩
    · rw [if_neg htg]
      simp only [anyElemN, Bool.or_eq_false_iff]
      exact ⟨(hqc tg ats (fixNestedHeadF c) c).trans h.1, hc'⟩
/-- Forest version of `fixHead_presN`. -/
theorem fixHead_presF (q : Node → Bool)
    (hqc : ∀ tg ats c c', q (.elem tg ats c) = q (.elem tg ats c')) :
    (f : Forest) → anyElemF q f = false → anyElemF q (fixNestedHeadF f) = false
  | [], _ => rfl
  | n :: t, h => by
    simp only [anyElemF, Bool.or_eq_false_iff] at h
    simp only [fixNestedHeadF, anyElemF, Bool.or_eq_false_iff]
    exact ⟨fixHead_presN q hqc n h.1, fixHead_presF q hqc t h.2⟩
end

mutual
/-- After the nested-heading pass, no heading contains a heading. -/
theorem fixHead_sepN : (n : Node) → sepN headP headP (fixNestedHeadN n) = true
  | .text _ => rfl
  | .elem tg ats c => by
    have hc' := fixHead_sepF c
    simp only [fixNestedHeadN]
    by_cases htg : isHeadingTag tg = true
    · rw [if_pos htg]
      cases hfi : findFirstF headP (fixNestedHeadF c) with
      | some d =>
        show sepN headP headP d = true
        exact findFirst_sepF headP headP headP (fixNestedHeadF c) d hc' hfi
      | none =>
        show sepN headP headP (.elem tg ats (fixNestedHeadF c)) = true
        have hns := noSat_of_ffNoneF headP (fixNestedHeadF c) hfi
        simp only [sepN, Bool.and_eq_true]
        refine ⟨?_, hc'⟩
        split
        · simp [hns]
        · rfl
    · rw [if_neg htg]
      simp only [sepN, Bool.and_eq_true]
      refine ⟨?_, hc'⟩
      have hh : headP (Node.elem tg ats (fixNestedHeadF c)) = false := by
        simp only [headP, tagOf]
        simpa using htg
      simp [hh]
/-- Forest version of `fixHead_sepN`. -/
theorem fixHead_sepF : (f : Forest) → sepF headP headP (fixNestedHeadF f) = true
  | [] => rfl
  | n :: t => by
    simp only [fixNestedHeadF, sepF, Bool.and_eq_true]
    exact ⟨fixHead_sepN n, fixHead_sepF t⟩
end

mutual
/-- The nested-heading pass is the identity when no heading contains a
heading. -/
theorem fixHead_idN : (n : Node) → sepN headP headP n = true → fixNestedHeadN n = n
  | .text _, _ => rfl
  | .elem tg ats c, h => by
    simp only [sepN, Bool.and_eq_true] at h
    have hc : fixNestedHeadF c = c := fixHead_idF c h.2
    simp only [fixNestedHeadN, hc]
    by_cases htg : isHeadingTag tg = true
    · rw [if_pos htg]
      have hh : headP (Node.elem tg ats c) = true := by simp [headP, tagOf, htg]
      have h1 := h.1
      rw [hh] at h1
      simp only [if_true] at h1
      have hns : anyElemF headP c = false := by simpa using h1
      rw [findFirst_noneF headP c hns]
    · rw [if_neg htg]
/-- Forest version of `fixHead_idN`. -/
theorem fixHead_idF : (f : Forest) → sepF headP headP f = true → fixNestedHeadF f = f
  | [], _ => rfl
  | n :: t, h => by
    simp only [sepF, Bool.and_eq_true] at h
    simp only [fixNestedHeadF]
    rw [fixHead_idN n h.1, fixHead_idF t h.2]
end

mutual
/-- Extracted outer headings inherit a no-`q` fact. -/
theorem outerHeads_noSatN (q : Node → Bool) :
    (n : Node) → anyElemN q n = false → anyElemF q (outerHeadingsN n) = false
  | .text _, _ => rfl
  | .elem tg ats c, h => by
    simp only [anyElemN, Bool.or_eq_false_iff] at h
    simp only [outerHeadingsN]
    by_cases htg : isHeadingTag tg = true
    · rw [if_pos htg]
      simp only [anyElemF, anyElemN, Bool.or_eq_false_iff]
      exact ⟨⟨h.1, h.2⟩, trivial⟩
    · rw [if_neg htg]
      exact outerHeads_noSatF q c h.2
/-- Forest version of `outerHeads_noSatN`. -/
theorem outerHeads_noSatF (q : Node → Bool) :
    (f : Forest) → anyElemF q f = false → anyElemF q (outerHeadingsF f) = false
  | [], _ => rfl
  | n :: t, h => by
    simp only [anyElemF, Bool.or_eq_false_iff] at h
    simp only [outerHeadingsF, anyElemF_append, Bool.or_eq_false_iff]
    exact ⟨outerHeads_noSatN q n h.1, outerHeads_noSatF q t h.2⟩
end

mutual
/-- Extracted outer headings inherit a separation fact. -/
theorem outerHeads_sepN (a b : Node → Bool) :
    (n : Node) → sepN a b n = true → sepF a b (outerHeadingsN n) = true
  | .text _, _ => rfl
  | .elem tg ats c, h => by
    simp only [outerHeadingsN]
    by_cases htg : isHeadingTag tg = true
    · rw [if_pos htg]
      simp only [sepF, Bool.and_eq_true]
      exact ⟨h, trivial⟩
    · rw [if_neg htg]
      have h2 : sepF a b c = true := by
        simp only [sepN, Bool.and_eq_true] at h
        exact h.2
      exact outerHeads_sepF a b c h2
/-- Forest version of `outerHeads_sepN`. -/
theorem outerHeads_sepF (a b : Node → Bool) :
    (f : Forest) → sepF a b f = true → sepF a b (outerHeadingsF f) = true
  | [], _ => rfl
  | n :: t, h => by
    simp only [sepF, Bool.and_eq_true] at h
    simp only [outerHeadingsF, sepF_append, Bool.and_eq_true]
    exact ⟨outerHeads_sepN a b n h.1, outerHeads_sepF a b t h.2⟩
end

mutual
/-- No headings, no extracted outer headings. -/
theorem outerHeads_nilN : (n : Node) → anyElemN headP n = false → outerHeadingsN n = []
  | .text _, _ => rfl
  | .elem tg ats c, h => by
    simp only [anyElemN, Bool.or_eq_false_iff] at h
    have htg : ¬(isHeadingTag tg = true) := by
      intro he
      have h1 := h.1
      simp [headP, tagOf, he] at h1
    simp only [outerHeadingsN]
    rw [if_neg htg]
    exact outerHeads_nilF c h.2
/-- Forest version of `outerHeads_nilN`. -/
theorem outerHeads_nilF : (f : Forest) → anyElemF headP f = false → outerHeadingsF f = []
  | [], _ => rfl
  | n :: t, h => by
    simp only [anyElemF, Bool.or_eq_false_iff] at h
    simp only [outerHeadingsF]
    rw [outerHeads_nilN n h.1, outerHeads_nilF t h.2]
    rfl
end

mutual
/-- When no heading contains a heading, extracted outer headings contain no
heading inside an inline container. -/
theorem outerHeads_sepInN :
    (n : Node) → sepN headP headP n = true → sepF inlineP headP (outerHeadingsN n) = true
  | .text _, _ => rfl
  | .elem tg ats c, h => by
    simp only [sepN, Bool.and_eq_true] at h
    simp only [outerHeadingsN]
    by_cases htg : isHeadingTag tg = true
    · rw [if_pos htg]
      have hh : headP (Node.elem tg ats c) = true := by simp [headP, tagOf, htg]
      have h1 := h.1
      rw [hh] at h1
      simp only [if_true] at h1
      have hns : anyElemF headP c = false := by simpa using h1
      simp only [sepF, Bool.and_eq_true]
      refine ⟨?_, trivial⟩
      simp only [sepN, Bool.and_eq_true]
      have hin : inlineP (Node.elem tg ats c) = false := by
        simp [inlineP, tagOf, head_not_inline tg htg]
      exact ⟨by simp [hin], sep_of_noSat_bF inlineP headP c hns⟩
    · rw [if_neg htg]
      exact outerHeads_sepInF c h.2
/-- Forest version of `outerHeads_sepInN`. -/
theorem outerHeads_sepInF :
    (f : Forest) → sepF headP headP f = true → sepF inlineP headP (outerHeadingsF f) = true
  | [], _ => rfl
  | n :: t, h => by
    simp only [sepF, Bool.and_eq_true] at h
    simp only [outerHeadingsF, sepF_append, Bool.and_eq_true]
    exact ⟨outerHeads_sepInN n h.1, outerHeads_sepInF t h.2⟩
end

mutual
/-- The headings-out-of-inline pass cannot create `q`-elements. -/
theorem headsOut_presN (q : Node → Bool)
    (hqc : ∀ tg ats c c', q (.elem tg ats c) = q (.elem tg ats c')) :
    (n : Node) → anyElemN q n = false → anyElemF q (headingsOutN n) = false
  | .text _, _ => rfl
  | .elem tg ats c, h => by
    simp only [anyElemN, Bool.or_eq_false_iff] at h
    simp only [headingsOutN]
    by_cases htg : isInlineTag tg = true
    · rw [if_pos htg]
      simp only [anyElemF_append, Bool.or_eq_false_iff]
      refine ⟨outerHeads_noSatF q c h.2, ?_⟩
      simp only [anyElemF, anyElemN, Bool.or_eq_false_iff]
      exact ⟨⟨(hqc tg ats (removeIfF headP c) c).trans h.1,
        remIf_presF headP q hqc c h.2⟩, trivial⟩
    · rw [if_neg htg]
      simp only [anyElemF, anyElemN, Bool.or_eq_false_iff]
      exact ⟨⟨(hqc tg ats (headingsOutF c) c).trans h.1, headsOut_presF q hqc c h.2⟩, trivial⟩
/-- Forest version of `headsOut_presN`. -/
theorem headsOut_presF (q : Node → Bool)
    (hqc : ∀ tg ats c c', q (.elem tg ats c) = q (.elem tg ats c')) :
    (f : Forest) → anyElemF q f = false → anyElemF q (headingsOutF f) = false
  | [], _ => rfl
  | n :: t, h => by
    simp only [anyElemF, Bool.or_eq_false_iff] at h
    simp only [headingsOutF, anyElemF_append, Bool.or_eq_false_iff]
    exact ⟨headsOut_presN q hqc n h.1, headsOut_presF q hqc t h.2⟩
end

mutual
/-- The headings-out-of-inline pass establishes that no heading remains
inside an inline container (given no heading contains a heading). -/
theorem headsOut_estN :
    (n : Node) → sepN headP headP n = true → sepF inlineP headP (headingsOutN n) = true
  | .text _, _ => rfl
  | .elem tg ats c, h => by
    simp only [sepN, Bool.and_eq_true] at h
    simp only [headingsOutN]
    by_cases htg : isInlineTag tg = true
    · rw [if_pos htg]
      simp only [sepF_append, Bool.and_eq_true]
      refine ⟨outerHeads_sepInF c h.2, ?_⟩
      simp only [sepF, Bool.and_eq_true]
      refine ⟨?_, trivial⟩
      simp only [sepN, Bool.and_eq_true]
      have hns := remIf_noSatF headP (fun _ _ _ _ => rfl) c
      refine ⟨?_, sep_of_noSat_bF inlineP headP _ hns⟩
      split
      · simp [hns]
      · rfl
    · rw [if_neg htg]
      simp only [sepF, Bool.and_eq_true]
      refine ⟨?_, trivial⟩
      simp only [sepN, Bool.and_eq_true]
      have hin : inlineP (Node.elem tg ats (headingsOutF c)) = false := by
        simp only [inlineP, tagOf]
        simpa using htg
      exact ⟨by simp [hin], headsOut_estF c h.2⟩
/-- Forest version of `headsOut_estN`. -/
theorem headsOut_estF :
    (f : Forest) → sepF headP headP f = true → sepF inlineP headP (headingsOutF f) = true
  | [], _ => rfl
  | n :: t, h => by
    simp only [sepF, Bool.and_eq_true] at h
    simp only [headingsOutF, sepF_append, Bool.and_eq_true]
    exact ⟨headsOut_estN n h.1, headsOut_estF t h.2⟩
end

mutual
/-- The headings-out-of-inline pass preserves heading/heading separation. -/
theorem headsOut_sepHHN :
    (n : Node) → sepN headP headP n = true → sepF headP headP (headingsOutN n) = true
  | .text _, _ => rfl
  | .elem tg ats c, h => by
    simp only [sepN, Bool.and_eq_true] at h
    simp only [headingsOutN]
    by_cases htg : isInlineTag tg = true
    · rw [if_pos htg]
      simp only [sepF_append, Bool.and_eq_true]
      refine ⟨outerHeads_sepF headP headP c h.2, ?_⟩
      simp only [sepF, Bool.and_eq_true]
      refine ⟨?_, trivial⟩
      simp only [sepN, Bool.and_eq_true]
      have hh : headP (Node.elem tg ats (removeIfF headP c)) = false := by
        simp only [headP, tagOf]
        exact inline_not_head tg htg
      exact ⟨by simp [hh],
        remIf_sepF headP headP headP (fun _ _ _ _ => rfl) (fun _ _ _ _ => rfl) c h.2⟩
    · rw [if_neg htg]
      simp only [sepF, Bool.and_eq_true]
      refine ⟨?_, trivial⟩
      simp only [sepN, Bool.and_eq_true]
      refine ⟨?_, headsOut_sepHHF c h.2⟩
      cases hh : headP (Node.elem tg ats (headingsOutF c)) with
      | false => simp [hh]
      | true =>
        have hh0 : headP (Node.elem tg ats c) = true := hh
        have h1 := h.1
        rw [hh0] at h1
        simp only [if_true] at h1
        have hns : anyElemF headP c = false := by simpa using h1
        have hpres := headsOut_presF headP (fun _ _ _ _ => rfl) c hns
        simp [hpres]
/-- Forest version of `headsOut_sepHHN`. -/
theorem headsOut_sepHHF :
    (f : Forest) → sepF headP headP f = true → sepF headP headP (headingsOutF f) = true
  | [], _ => rfl
  | n :: t, h => by
    simp only [sepF, Bool.and_eq_true] at h
    simp only [headingsOutF, sepF_append, Bool.and_eq_true]
    exact ⟨headsOut_sepHHN n h.1, headsOut_sepHHF t h.2⟩
end

mutual
/-- The headings-out-of-inline pass is the identity when no heading sits
inside an inline container. -/
theorem headsOut_idN : (n : Node) → sepN inlineP headP n = true → headingsOutN n = [n]
  | .text _, _ => rfl
  | .elem tg ats c, h => by
    simp only [sepN, Bool.and_eq_true] at h
    simp only [headingsOutN]
    by_cases htg : isInlineTag tg = true
    · rw [if_pos htg]
      have hin : inlineP (Node.elem tg ats c) = true := by simp [inlineP, tagOf, htg]
      have h1 := h.1
      rw [hin] at h1
      simp only [if_true] at h1
      have hns : anyElemF headP c = false := by simpa using h1
      rw [outerHeads_nilF c hns, remIf_idF headP (fun _ => rfl) c hns]
      rfl
    · rw [if_neg htg]
      rw [headsOut_idF c h.2]
/-- Forest version of `headsOut_idN`. -/
theorem headsOut_idF : (f : Forest) → sepF inlineP headP f = true → headingsOutF f = f
  | [], _ => rfl
  | n :: t, h => by
    simp only [sepF, Bool.and_eq_true] at h
    simp only [headingsOutF]
    rw [headsOut_idN n h.1, headsOut_idF t h.2]
    rfl
end

mutual
/-- Extracted lists inherit a no-`q` fact (children-irrelevant `q`). -/
theorem collectLists_presN (q : Node → Bool)
    (hqc : ∀ tg ats c c', q (.elem tg ats c) = q (.elem tg ats c')) :
    (n : Node) → anyElemN q n = false → anyElemF q (collectListsN n) = false
  | .text _, _ => rfl
  | .elem tg ats c, h => by
    simp only [anyElemN, Bool.or_eq_false_iff] at h
    simp only [collectListsN, anyElemF_append, Bool.or_eq_false_iff]
    refine ⟨?_, collectLists_presF q hqc c h.2⟩
    by_cases htg : isListTag tg = true
    · rw [if_pos htg]
      simp only [anyElemF, anyElemN, Bool.or_eq_false_iff]
      exact ⟨⟨(hqc tg ats (removeIfF listP c) c).trans h.1,
        remIf_presF listP q hqc c h.2⟩, trivial⟩
    · rw [if_neg htg]
      rfl
/-- Forest version of `collectLists_presN`. -/
theorem collectLists_presF (q : Node → Bool)
    (hqc : ∀ tg ats c c', q (.elem tg ats c) = q (.elem tg ats c')) :
    (f : Forest) → anyElemF q f = false → anyElemF q (collectListsF f) = false
  | [], _ => rfl
  | n :: t, h => by
    simp only [anyElemF, Bool.or_eq_false_iff] at h
    simp only [collectListsF, anyElemF_append, Bool.or_eq_false_iff]
    exact ⟨collectLists_presN q hqc n h.1, collectLists_presF q hqc t h.2⟩
end

mutual
/-- Extracted lists contain no list inside a heading (unconditionally:
their own nested lists were removed). -/
theorem collectLists_sepHLN : (n : Node) → sepF headP listP (collectListsN n) = true
  | .text _ => rfl
  | .elem tg ats c => by
    simp only [collectListsN, sepF_append, Bool.and_eq_true]
    refine ⟨?_, collectLists_sepHLF c⟩
    by_cases htg : isListTag tg = true
    · rw [if_pos htg]
      simp only [sepF, Bool.and_eq_true]
      refine ⟨?_, trivial⟩
      simp only [sepN, Bool.and_eq_true]
      have hh : headP (Node.elem tg ats (removeIfF listP c)) = false := by
        simp only [headP, tagOf]
        exact list_not_head tg htg
      have hns := remIf_noSatF listP (fun _ _ _ _ => rfl) c
      exact ⟨by simp [hh], sep_of_noSat_bF headP listP _ hns⟩
    · rw [if_neg htg]
      rfl
/-- Forest version of `collectLists_sepHLN`. -/
theorem collectLists_sepHLF : (f : Forest) → sepF headP listP (collectListsF f) = true
  | [] => rfl
  | n :: t => by
    simp only [collectListsF, sepF_append, Bool.and_eq_true]
    exact ⟨collectLists_sepHLN n, collectLists_sepHLF t⟩
end

mutual
/-- Extracted lists inherit a separation fact (children-irrelevant
predicates). -/
theorem collectLists_sepN (a b : Node → Bool)
    (hac : ∀ tg ats c c', a (.elem tg ats c) = a (.elem tg ats c'))
    (hbc : ∀ tg ats c c', b (.elem tg ats c) = b (.elem tg ats c')) :
    (n : Node) → sepN a b n = true → sepF a b (collectListsN n) = true
  | .text _, _ => rfl
  | .elem tg ats c, h => by
    simp only [sepN, Bool.and_eq_true] at h
    simp only [collectListsN, sepF_append, Bool.and_eq_true]
    refine ⟨?_, collectLists_sepF a b hac hbc c h.2⟩
    by_cases htg : isListTag tg = true
    · rw [if_pos htg]
      simp only [sepF, Bool.and_eq_true]
      refine ⟨?_, trivial⟩
      simp only [sepN, Bool.and_eq_true]
      refine ⟨?_, remIf_sepF listP a b hac hbc c h.2⟩
      rw [hac tg ats (removeIfF listP c) c]
      cases ha : a (Node.elem tg ats c) with
      | false => simp
      | true =>
        have h1 := h.1
        rw [ha] at h1
        simp only [if_true] at h1
        have hb : anyElemF b c = false := by simpa using h1
        simp [remIf_presF listP b hbc c hb]
    · rw [if_neg htg]
      rfl
/-- Forest version of `collectLists_sepN`. -/
theorem collectLists_sepF (a b : Node → Bool)
    (hac : ∀ tg ats c c', a (.elem tg ats c) = a (.elem tg ats c'))
    (hbc : ∀ tg ats c c', b (.elem tg ats c) = b (.elem tg ats c')) :
    (f : Forest) → sepF a b f = true → sepF a b (collectListsF f) = true
  | [], _ => rfl
  | n :: t, h => by
    simp only [sepF, Bool.and_eq_true] at h
    simp only [collectListsF, sepF_append, Bool.and_eq_true]
    exact ⟨collectLists_sepN a b hac hbc n h.1, collectLists_sepF a b hac hbc t h.2⟩
end

mutual
/-- No lists, no extracted lists. -/
theorem collectLists_nilN : (n : Node) → anyElemN listP n = false → collectListsN n = []
  | .text _, _ => rfl
  | .elem tg ats c, h => by
    simp only [anyElemN, Bool.or_eq_false_iff] at h
    have htg : ¬(isListTag tg = true) := by
      intro he
      have h1 := h.1
      simp [listP, tagOf, he] at h1
    simp only [collectListsN]
    rw [if_neg htg, collectLists_nilF c h.2]
    rfl
/-- Forest version of `collectLists_nilN`. -/
theorem collectLists_nilF : (f : Forest) → anyElemF listP f = false → collectListsF f = []
  | [], _ => rfl
  | n :: t, h => by
    simp only [anyElemF, Bool.or_eq_false_iff] at h
    simp only [collectListsF]
    rw [collectLists_nilN n h.1, collectLists_nilF t h.2]
    rfl
end

mutual
/-- The lists-out-of-headings pass cannot create `q`-elements. -/
theorem listsOut_presN (q : Node → Bool)
    (hqc : ∀ tg ats c c', q (.elem tg ats c) = q (.elem tg ats c')) :
    (n : Node) → anyElemN q n = false → anyElemF q (listsOutN n) = false
  | .text _, _ => rfl
  | .elem tg ats c, h => by
    simp only [anyElemN, Bool.or_eq_false_iff] at h
    simp only [listsOutN]
    by_cases htg : isHeadingTag tg = true
    · rw [if_pos htg]
      simp only [anyElemF, Bool.or_eq_false_iff]
      refine ⟨?_, ?_⟩
      · simp only [anyElemN, Bool.or_eq_false_iff]
        exact ⟨(hqc tg ats (removeIfF listP c) c).trans h.1, remIf_presF listP q hqc c h.2⟩
      · rw [anyElemF_reverse]
        exact collectLists_presF q hqc c h.2
    · rw [if_neg htg]
      simp only [anyElemF, anyElemN, Bool.or_eq_false_iff]
      exact ⟨⟨(hqc tg ats (listsOutF c) c).trans h.1, listsOut_presF q hqc c h.2⟩, trivial⟩
/-- Forest version of `listsOut_presN`. -/
theorem listsOut_presF (q : Node → Bool)
    (hqc : ∀ tg ats c c', q (.elem tg ats c) = q (.elem tg ats c')) :
    (f : Forest) → anyElemF q f = false → anyElemF q (listsOutF f) = false
  | [], _ => rfl
  | n :: t, h => by
    simp only [anyElemF, Bool.or_eq_false_iff] at h
    simp only [listsOutF, anyElemF_append, Bool.or_eq_false_iff]
    exact ⟨listsOut_presN q hqc n h.1, listsOut_presF q hqc t h.2⟩
end

mutual
/-- The lists-out-of-headings pass leaves no list inside a heading. -/
theorem listsOut_estN : (n : Node) → sepF headP listP (listsOutN n) = true
  | .text _ => rfl
  | .elem tg ats c => by
    simp only [listsOutN]
    by_cases htg : isHeadingTag tg = true
    · rw [if_pos htg]
      simp only [sepF, Bool.and_eq_true]
      refine ⟨?_, ?_⟩
      · simp only [sepN, Bool.and_eq_true]
        have hns := remIf_noSatF listP (fun _ _ _ _ => rfl) c
        refine ⟨?_, sep_of_noSat_bF headP listP _ hns⟩
        split
        · simp [hns]
        · rfl
      · rw [sepF_reverse]
        exact collectLists_sepHLF c
    · rw [if_neg htg]
      simp only [sepF, Bool.and_eq_true]
      refine ⟨?_, trivial⟩
      simp only [sepN, Bool.and_eq_true]
      have hh : headP (Node.elem tg ats (listsOutF c)) = false := by
        simp only [headP, tagOf]
        simpa using htg
      exact ⟨by simp [hh], listsOut_estF c⟩
/-- Forest version of `listsOut_estN`. -/
theorem listsOut_estF : (f : Forest) → sepF headP listP (listsOutF f) = true
  | [] => rfl
  | n :: t => by
    simp only [listsOutF, sepF_append, Bool.and_eq_true]
    exact ⟨listsOut_estN n, listsOut_estF t⟩
end

mutual
/-- The lists-out-of-headings pass preserves separation of
children-irrelevant predicates. -/
theorem listsOut_sepN (a b : Node → Bool)
    (hac : ∀ tg ats c c', a (.elem tg ats c) = a (.elem tg ats c'))
    (hbc : ∀ tg ats c c', b (.elem tg ats c) = b (.elem tg ats c')) :
    (n : Node) → sepN a b n = true → sepF a b (listsOutN n) = true
  | .text _, _ => rfl
  | .elem tg ats c, h => by
    simp only [sepN, Bool.and_eq_true] at h
    simp only [listsOutN]
    by_cases htg : isHeadingTag tg = true
    · rw [if_pos htg]
      simp only [sepF, Bool.and_eq_true]
      refine ⟨?_, ?_⟩
      · simp only [sepN, Bool.and_eq_true]
        refine ⟨?_, remIf_sepF listP a b hac hbc c h.2⟩
        rw [hac tg ats (removeIfF listP c) c]
        cases ha : a (Node.elem tg ats c) with
        | false => simp
        | true =>
          have h1 := h.1
          rw [ha] at h1
          simp only [if_true] at h1
          have hb : anyElemF b c = false := by simpa using h1
          simp [remIf_presF listP b hbc c hb]
      · rw [sepF_reverse]
        exact collectLists_sepF a b hac hbc c h.2
    · rw [if_neg htg]
      simp only [sepF, Bool.and_eq_true]
      refine ⟨?_, trivial⟩
      simp only [sepN, Bool.and_eq_true]
      refine ⟨?_, listsOut_sepF a b hac hbc c h.2⟩
      rw [hac tg ats (listsOutF c) c]
      cases ha : a (Node.elem tg ats c) with
      | false => simp
      | true =>
        have h1 := h.1
        rw [ha] at h1
        simp only [if_true] at h1
        have hb : anyElemF b c = false := by simpa using h1
        simp [listsOut_presF b hbc c hb]
/-- Forest version of `listsOut_sepN`. -/
theorem listsOut_sepF (a b : Node → Bool)
    (hac : ∀ tg ats c c', a (.elem tg ats c) = a (.elem tg ats c'))
    (hbc : ∀ tg ats c c', b (.elem tg ats c) = b (.elem tg ats c')) :
    (f : Forest) → sepF a b f = true → sepF a b (listsOutF f) = true
  | [], _ => rfl
  | n :: t, h => by
    simp only [sepF, Bool.and_eq_true] at h
    simp only [listsOutF, sepF_append, Bool.and_eq_true]
    exact ⟨listsOut_sepN a b hac hbc n h.1, listsOut_sepF a b hac hbc t h.2⟩
end

mutual
/-- The lists-out-of-headings pass is the identity when no list sits
inside a heading. -/
theorem listsOut_idN : (n : Node) → sepN headP listP n = true → listsOutN n = [n]
  | .text _, _ => rfl
  | .elem tg ats c, h => by
    simp only [sepN, Bool.and_eq_true] at h
    simp only [listsOutN]
    by_cases htg : isHeadingTag tg = true
    · rw [if_pos htg]
      have hh : headP (Node.elem tg ats c) = true := by simp [headP, tagOf, htg]
      have h1 := h.1
      rw [hh] at h1
      simp only [if_true] at h1
      have hns : anyElemF listP c = false := by simpa using h1
      rw [remIf_idF listP (fun _ => rfl) c hns, collectLists_nilF c hns]
      rfl
    · rw [if_neg htg]
      rw [listsOut_idF c h.2]
/-- Forest version of `listsOut_idN`. -/
theorem listsOut_idF : (f : Forest) → sepF headP listP f = true → listsOutF f = f
  | [], _ => rfl
  | n :: t, h => by
    simp only [sepF, Bool.and_eq_true] at h
    simp only [listsOutF]
    rw [listsOut_idN n h.1, listsOut_idF t h.2]
    rfl
end

/-- Prepending the empty string is a no-op. -/
theorem str_empty_append (s : String) : "" ++ s = s := by
  apply String.ext
  simp [String.data_append]

mutual
/-- Removing nodes with empty stripped text keeps the stripped text. -/
theorem textStrip_remIfN (p : Node → Bool) (hp : ∀ n, p n = true → textStripN n = "") :
    (n : Node) → textStripN (removeIfN p n) = textStripN n
  | .text _ => rfl
  | .elem tg ats c => by
    simp only [removeIfN, textStripN]
    exact textStrip_remIfF p hp c
/-- Forest version of `textStrip_remIfN`. -/
theorem textStrip_remIfF (p : Node → Bool) (hp : ∀ n, p n = true → textStripN n = "") :
    (f : Forest) → textStripF (removeIfF p f) = textStripF f
  | [] => rfl
  | n :: t => by
    cases hpn : p n with
    | true =>
      have he : removeIfF p (n :: t) = removeIfF p t := by
        simp [removeIfF, hpn]
      rw [he, textStrip_remIfF p hp t]
      show textStripF t = textStripN n ++ textStripF t
      rw [hp n hpn, str_empty_append]
    | false =>
      simp only [removeIfF, hpn, Bool.false_eq_true, if_false, textStripF]
      rw [textStrip_remIfN p hp n, textStrip_remIfF p hp t]
end

mutual
/-- Removing nodes free of `q`-elements keeps `q`-occurrence exactly
(children-irrelevant `q`). -/
theorem anyElem_remIf_invN (p q : Node → Bool)
    (hqc : ∀ tg ats c c', q (.elem tg ats c) = q (.elem tg ats c'))
    (hpq : ∀ n, p n = true → anyElemN q n = false) :
    (n : Node) → anyElemN q (removeIfN p n) = anyElemN q n
  | .text _ => rfl
  | .elem tg ats c => by
    simp only [removeIfN, anyElemN]
    rw [hqc tg ats (removeIfF p c) c, anyElem_remIf_invF p q hqc hpq c]
/-- Forest version of `anyElem_remIf_invN`. -/
theorem anyElem_remIf_invF (p q : Node → Bool)
    (hqc : ∀ tg ats c c', q (.elem tg ats c) = q (.elem tg ats c'))
    (hpq : ∀ n, p n = true → anyElemN q n = false) :
    (f : Forest) → anyElemF q (removeIfF p f) = anyElemF q f
  | [] => rfl
  | n :: t => by
    cases hpn : p n with
    | true =>
      have he : removeIfF p (n :: t) = removeIfF p t := by
        simp [removeIfF, hpn]
      rw [he, anyElem_remIf_invF p q hqc hpq t]
      simp [anyElemF, hpq n hpn]
    | false =>
      simp only [removeIfF, hpn, Bool.false_eq_true, if_false, anyElemF]
      rw [anyElem_remIf_invN p q hqc hpq n, anyElem_remIf_invF p q hqc hpq t]
end

/-- An empty `p`/`div`/`span` has empty stripped text. -/
theorem emptyPds_text (n : Node) (h : emptyPds n = true) : textStripN n = "" := by
  cases n with
  | text s => simp [emptyPds] at h
  | elem tg ats c =>
    simp only [emptyPds, Bool.and_eq_true, beq_iff_eq] at h
    simp only [textStripN]
    exact h.1.2

/-- An empty `p`/`div`/`span` contains no `img` (its own tag included). -/
theorem emptyPds_noImg (n : Node) (h : emptyPds n = true) :
    anyElemN (isTagP "img") n = false := by
  cases n with
  | text _ => rfl
  | elem tg ats c =>
    simp only [emptyPds, Bool.and_eq_true] at h
    have htag := h.1.1
    have himg : (tg == "img") = false := by
      simp only [Bool.or_eq_true, beq_iff_eq] at htag
      rcases htag with (h' | h') | h' <;> subst h' <;> decide
    have hImgF : anyElemF (isTagP "img") c = false := by simpa using h.2
    simp [anyElemN, isTagP, himg, hImgF]

/-- The emptiness test is stable under the empty-container removal. -/
theorem emptyPds_remIf (tg : String) (ats : List (String × String)) (c : Forest) :
    emptyPds (.elem tg ats (removeIfF emptyPds c)) = emptyPds (.elem tg ats c) := by
  simp only [emptyPds]
  rw [textStrip_remIfF emptyPds emptyPds_text c,
    anyElem_remIf_invF emptyPds (isTagP "img") (fun _ _ _ _ => rfl) emptyPds_noImg c]

mutual
/-- Variant of `remIf_noSatN` needing only per-node stability of `p`
under the removal itself. -/
theorem remIf_noSat2N (p : Node → Bool)
    (hpi : ∀ tg ats c, p (.elem tg ats (removeIfF p c)) = p (.elem tg ats c)) :
    (n : Node) → p n = false → anyElemN p (removeIfN p n) = false
  | .text _, _ => rfl
  | .elem tg ats c, h => by
    simp only [removeIfN, anyElemN, Bool.or_eq_false_iff]
    exact ⟨(hpi tg ats c).trans h, remIf_noSat2F p hpi c⟩
/-- Forest version of `remIf_noSat2N`. -/
theorem remIf_noSat2F (p : Node → Bool)
    (hpi : ∀ tg ats c, p (.elem tg ats (removeIfF p c)) = p (.elem tg ats c)) :
    (f : Forest) → anyElemF p (removeIfF p f) = false
  | [] => rfl
  | n :: t => by
    cases hpn : p n with
    | true => simpa [removeIfF, hpn] using remIf_noSat2F p hpi t
    | false =>
      simp only [removeIfF, hpn, Bool.false_eq_true, if_false, anyElemF,
        Bool.or_eq_false_iff]
      exact ⟨remIf_noSat2N p hpi n hpn, remIf_noSat2F p hpi t⟩
end

/-- The emptiness test ignores attributes and is stable under attribute
transforms of the children. -/
theorem emptyPds_attrMap (g : String → List (String × String) → List (String × String))
    (tg : String) (ats ats' : List (String × String)) (c : Forest) :
    emptyPds (.elem tg ats' (attrMapF g c)) = emptyPds (.elem tg ats c) := by
  simp only [emptyPds]
  rw [attrMap_textStripF g c, attrMap_anyTagF g "img" c]

/-- Lookup of a non-denied key is unchanged by the attribute strip. -/
theorem getAttr_invalidFix (tg : String) (ats : List (String × String)) (k : String)
    (hk : invalidAttr k = false) : getAttr (invalidAttrFix tg ats) k = getAttr ats k := by
  unfold invalidAttrFix
  rw [getAttr_filterKey (fun key => !invalidAttr key) ats k]
  rw [if_pos (by simp [hk])]

/-- The element-wise elimination predicate is stable under the attribute
strip (it reads only the tag and `src`/`href`/table keys, none denied). -/
theorem cleanQ_invalidFix (tg : String) (ats : List (String × String)) (c c' : Forest) :
    cleanQ (.elem tg (invalidAttrFix tg ats) c') = cleanQ (.elem tg ats c) := by
  have hsrc : getAttr (invalidAttrFix tg ats) "src" = getAttr ats "src" :=
    getAttr_invalidFix tg ats "src" (by decide)
  have hhref : getAttr (invalidAttrFix tg ats) "href" = getAttr ats "href" :=
    getAttr_invalidFix tg ats "href" (by decide)
  have hcp : getAttr (invalidAttrFix tg ats) "cellpadding" = getAttr ats "cellpadding" :=
    getAttr_invalidFix tg ats "cellpadding" (by decide)
  have hcs : getAttr (invalidAttrFix tg ats) "cellspacing" = getAttr ats "cellspacing" :=
    getAttr_invalidFix tg ats "cellspacing" (by decide)
  have hbd : getAttr (invalidAttrFix tg ats) "border" = getAttr ats "border" :=
    getAttr_invalidFix tg ats "border" (by decide)
  simp only [cleanQ, removedTagsQ, isTagP, isMediaP, badTableQ, badImg, badStylesheet,
    badRemoteSrc, hasAttr, hsrc, hhref, hcp, hcs, hbd]

/-- C4 counterexample: `clean_html` is **not** idempotent.  On the first
application the MathML husk removal drops the empty `mspace` (no text, no
element descendants) but keeps the attributed `mrow` (it still has an
element descendant); on the second application the `mrow`, now childless
but still attributed, satisfies the husk condition and is dropped too. -/
theorem c4_counterexample : clean_html (clean_html c4inp) ≠ clean_html c4inp := by
  decide

/-- After `clean_html` on a math-free fragment: no eliminated element kind
remains, no heading contains a heading, no heading sits inside an inline
container, no list sits inside a heading, and no empty container or
invalid attribute survives. -/
theorem clean_html_post (f : Forest) (hm : anyElemF (isTagP "math") f = false) :
    anyElemF cleanQ (clean_html f) = false ∧
    sepF headP headP (clean_html f) = true ∧
    sepF inlineP headP (clean_html f) = true ∧
    sepF headP listP (clean_html f) = true ∧
    anyElemF emptyPds (clean_html f) = false ∧
    anyElemF attrsBadQ (clean_html f) = false := by
  have e1math : anyElemF (isTagP "math") (removeIfF (isTagP "svg") f) = false :=
    remIf_presF (isTagP "svg") (isTagP "math") (fun _ _ _ _ => rfl) f hm
  simp only [clean_html]
  rw [(mc_id (sizeF (removeIfF (isTagP "svg") f) + 1)).2 _ e1math]
  set g1 := removeIfF (isTagP "svg") f
  set g2 := removeIfF (isTagP "iframe") g1
  set g3 := removeIfF isMediaP g2
  set g4 := removeIfF (isTagP "script") g3
  set g5 := codeSnippetF g4
  set g6 := attrMapF tableAttrFix g5
  set g7 := pictureCleanF g6
  set g8 := removeIfF badImg g7
  set g9 := removeIfF badStylesheet g8
  set g10 := removeIfF badRemoteSrc g9
  set g11 := fixNestedHeadF g10
  set g12 := headingsOutF g11
  set g13 := listsOutF g12
  set g14 := removeIfF emptyPds g13
  set g15 := attrMapF invalidAttrFix g14
  have e1svg : anyElemF (isTagP "svg") g1 = false :=
    remIf_noSatF (isTagP "svg") (fun _ _ _ _ => rfl) f
  have e2ifr : anyElemF (isTagP "iframe") g2 = false :=
    remIf_noSatF (isTagP "iframe") (fun _ _ _ _ => rfl) g1
  have e2svg : anyElemF (isTagP "svg") g2 = false :=
    remIf_presF (isTagP "iframe") (isTagP "svg") (fun _ _ _ _ => rfl) g1 e1svg
  have e2math : anyElemF (isTagP "math") g2 = false :=
    remIf_presF (isTagP "iframe") (isTagP "math") (fun _ _ _ _ => rfl) g1 e1math
  have e3med : anyElemF isMediaP g3 = false :=
    remIf_noSatF isMediaP (fun _ _ _ _ => rfl) g2
  have e3svg : anyElemF (isTagP "svg") g3 = false :=
    remIf_presF isMediaP (isTagP "svg") (fun _ _ _ _ => rfl) g2 e2svg
  have e3math : anyElemF (isTagP "math") g3 = false :=
    remIf_presF isMediaP (isTagP "math") (fun _ _ _ _ => rfl) g2 e2math
  have e3ifr : anyElemF (isTagP "iframe") g3 = false :=
    remIf_presF isMediaP (isTagP "iframe") (fun _ _ _ _ => rfl) g2 e2ifr
  have e4scr : anyElemF (isTagP "script") g4 = false :=
    remIf_noSatF (isTagP "script") (fun _ _ _ _ => rfl) g3
  have e4svg : anyElemF (isTagP "svg") g4 = false :=
    remIf_presF (isTagP "script") (isTagP "svg") (fun _ _ _ _ => rfl) g3 e3svg
  have e4math : anyElemF (isTagP "math") g4 = false :=
    remIf_presF (isTagP "script") (isTagP "math") (fun _ _ _ _ => rfl) g3 e3math
  have e4ifr : anyElemF (isTagP "iframe") g4 = false :=
    remIf_presF (isTagP "script") (isTagP "iframe") (fun _ _ _ _ => rfl) g3 e3ifr
  have e4med : anyElemF isMediaP g4 = false :=
    remIf_presF (isTagP "script") isMediaP (fun _ _ _ _ => rfl) g3 e3med
  have e5cds : anyElemF (isTagP "cds-code-snippet") g5 = false := codeSnippet_noSatF g4
  have e5svg : anyElemF (isTagP "svg") g5 = false :=
    codeSnippet_presF (isTagP "svg") (fun _ _ _ _ => rfl)
      (fun _ => by simp [isTagP]) (fun _ => by simp [isTagP]) g4 e4svg
  have e5math : anyElemF (isTagP "math") g5 = false :=
    codeSnippet_presF (isTagP "math") (fun _ _ _ _ => rfl)
      (fun _ => by simp [isTagP]) (fun _ => by simp [isTagP]) g4 e4math
  have e5ifr : anyElemF (isTagP "iframe") g5 = false :=
    codeSnippet_presF (isTagP "iframe") (fun _ _ _ _ => rfl)
      (fun _ => by simp [isTagP]) (fun _ => by simp [isTagP]) g4 e4ifr
  have e5med : anyElemF isMediaP g5 = false :=
    codeSnippet_presF isMediaP (fun _ _ _ _ => rfl)
      (fun _ => by simp [isMediaP, isTagP]) (fun _ => by simp [isMediaP, isTagP]) g4 e4med
  have e5scr : anyElemF (isTagP "script") g5 = false :=
    codeSnippet_presF (isTagP "script") (fun _ _ _ _ => rfl)
      (fun _ => by simp [isTagP]) (fun _ => by simp [isTagP]) g4 e4scr
  have e6tab : anyElemF badTableQ g6 = false := tableFix_noSatF g5
  have e6svg : anyElemF (isTagP "svg") g6 = false :=
    attrMap_presF tableAttrFix (isTagP "svg") (fun _ _ _ h => h) g5 e5svg
  have e6math : anyElemF (isTagP "math") g6 = false :=
    attrMap_presF tableAttrFix (isTagP "math") (fun _ _ _ h => h) g5 e5math
  have e6ifr : anyElemF (isTagP "iframe") g6 = false :=
    attrMap_presF tableAttrFix (isTagP "iframe") (fun _ _ _ h => h) g5 e5ifr
  have e6med : anyElemF isMediaP g6 = false :=
    attrMap_presF tableAttrFix isMediaP (fun _ _ _ h => h) g5 e5med
  have e6scr : anyElemF (isTagP "script") g6 = false :=
    attrMap_presF tableAttrFix (isTagP "script") (fun _ _ _ h => h) g5 e5scr
  have e6cds : anyElemF (isTagP "cds-code-snippet") g6 = false :=
    attrMap_presF tableAttrFix (isTagP "cds-code-snippet") (fun _ _ _ h => h) g5 e5cds
  have e7pic : anyElemF (isTagP "picture") g7 = false := picClean_noSatF g6
  have e7svg : anyElemF (isTagP "svg") g7 = false :=
    picClean_presF (isTagP "svg") (fun _ _ _ _ => rfl) g6 e6svg
  have e7math : anyElemF (isTagP "math") g7 = false :=
    picClean_presF (isTagP "math") (fun _ _ _ _ => rfl) g6 e6math
  have e7ifr : anyElemF (isTagP "iframe") g7 = false :=
    picClean_presF (isTagP "iframe") (fun _ _ _ _ => rfl) g6 e6ifr
  have e7med : anyElemF isMediaP g7 = false :=
    picClean_presF isMediaP (fun _ _ _ _ => rfl) g6 e6med
  have e7scr : anyElemF (isTagP "script") g7 = false :=
    picClean_presF (isTagP "script") (fun _ _ _ _ => rfl) g6 e6scr
  have e7cds : anyElemF (isTagP "cds-code-snippet") g7 = false :=
    picClean_presF (isTagP "cds-code-snippet") (fun _ _ _ _ => rfl) g6 e6cds
  have e7tab : anyElemF badTableQ g7 = false :=
    picClean_presF badTableQ (fun _ _ _ _ => rfl) g6 e6tab
  have e8img : anyElemF badImg g8 = false :=
    remIf_noSatF badImg (fun _ _ _ _ => rfl) g7
  have e8svg : anyElemF (isTagP "svg") g8 = false :=
    remIf_presF badImg (isTagP "svg") (fun _ _ _ _ => rfl) g7 e7svg
  have e8math : anyElemF (isTagP "math") g8 = false :=
    remIf_presF badImg (isTagP "math") (fun _ _ _ _ => rfl) g7 e7math
  have e8ifr : anyElemF (isTagP "iframe") g8 = false :=
    remIf_presF badImg (isTagP "iframe") (fun _ _ _ _ => rfl) g7 e7ifr
  have e8med : anyElemF isMediaP g8 = false :=
    remIf_presF badImg isMediaP (fun _ _ _ _ => rfl) g7 e7med
  have e8scr : anyElemF (isTagP "script") g8 = false :=
    remIf_presF badImg (isTagP "script") (fun _ _ _ _ => rfl) g7 e7scr
  have e8cds : anyElemF (isTagP "cds-code-snippet") g8 = false :=
    remIf_presF badImg (isTagP "cds-code-snippet") (fun _ _ _ _ => rfl) g7 e7cds
  have e8tab : anyElemF badTableQ g8 = false :=
    remIf_presF badImg badTableQ (fun _ _ _ _ => rfl) g7 e7tab
  have e8pic : anyElemF (isTagP "picture") g8 = false :=
    remIf_presF badImg (isTagP "picture") (fun _ _ _ _ => rfl) g7 e7pic
  have e9sty : anyElemF badStylesheet g9 = false :=
    remIf_noSatF badStylesheet (fun _ _ _ _ => rfl) g8
  have e9svg : anyElemF (isTagP "svg") g9 = false :=
    remIf_presF badStylesheet (isTagP "svg") (fun _ _ _ _ => rfl) g8 e8svg
  have e9math : anyElemF (isTagP "math") g9 = false :=
    remIf_presF badStylesheet (isTagP "math") (fun _ _ _ _ => rfl) g8 e8math
  have e9ifr : anyElemF (isTagP "iframe") g9 = false :=
    remIf_presF badStylesheet (isTagP "iframe") (fun _ _ _ _ => rfl) g8 e8ifr
  have e9med : anyElemF isMediaP g9 = false :=
    remIf_presF badStylesheet isMediaP (fun _ _ _ _ => rfl) g8 e8med
  have e9scr : anyElemF (isTagP "script") g9 = false :=
    remIf_presF badStylesheet (isTagP "script") (fun _ _ _ _ => rfl) g8 e8scr
  have e9cds : anyElemF (isTagP "cds-code-snippet") g9 = false :=
    remIf_presF badStylesheet (isTagP "cds-code-snippet") (fun _ _ _ _ => rfl) g8 e8cds
  have e9tab : anyElemF badTableQ g9 = false :=
    remIf_presF badStylesheet badTableQ (fun _ _ _ _ => rfl) g8 e8tab
  have e9pic : anyElemF (isTagP "picture") g9 = false :=
    remIf_presF badStylesheet (isTagP "picture") (fun _ _ _ _ => rfl) g8 e8pic
  have e9img : anyElemF badImg g9 = false :=
    remIf_presF badStylesheet badImg (fun _ _ _ _ => rfl) g8 e8img
  have e10rsrc : anyElemF badRemoteSrc g10 = false :=
    remIf_noSatF badRemoteSrc (fun _ _ _ _ => rfl) g9
  have e10svg : anyElemF (isTagP "svg") g10 = false :=
    remIf_presF badRemoteSrc (isTagP "svg") (fun _ _ _ _ => rfl) g9 e9svg
  have e10math : anyElemF (isTagP "math") g10 = false :=
    remIf_presF badRemoteSrc (isTagP "math") (fun _ _ _ _ => rfl) g9 e9math
  have e10ifr : anyElemF (isTagP "iframe") g10 = false :=
    remIf_presF badRemoteSrc (isTagP "iframe") (fun _ _ _ _ => rfl) g9 e9ifr
  have e10med : anyElemF isMediaP g10 = false :=
    remIf_presF badRemoteSrc isMediaP (fun _ _ _ _ => rfl) g9 e9med
  have e10scr : anyElemF (isTagP "script") g10 = false :=
    remIf_presF badRemoteSrc (isTagP "script") (fun _ _ _ _ => rfl) g9 e9scr
  have e10cds : anyElemF (isTagP "cds-code-snippet") g10 = false :=
    remIf_presF badRemoteSrc (isTagP "cds-code-snippet") (fun _ _ _ _ => rfl) g9 e9cds
  have e10tab : anyElemF badTableQ g10 = false :=
    remIf_presF badRemoteSrc badTableQ (fun _ _ _ _ => rfl) g9 e9tab
  have e10pic : anyElemF (isTagP "picture") g10 = false :=
    remIf_presF badRemoteSrc (isTagP "picture") (fun _ _ _ _ => rfl) g9 e9pic
  have e10img : anyElemF badImg g10 = false :=
    remIf_presF badRemoteSrc badImg (fun _ _ _ _ => rfl) g9 e9img
  have e10sty : anyElemF badStylesheet g10 = false :=
    remIf_presF badRemoteSrc badStylesheet (fun _ _ _ _ => rfl) g9 e9sty
  have e10clean : anyElemF cleanQ g10 = false :=
    cleanQ_noSatF g10
      (removedTags_noSatF g10 e10svg e10math e10ifr e10med e10scr)
      e10cds e10tab e10pic e10img e10sty e10rsrc
  have s11hh : sepF headP headP g11 = true := fixHead_sepF g10
  have e11clean : anyElemF cleanQ g11 = false :=
    fixHead_presF cleanQ (fun _ _ _ _ => rfl) g10 e10clean
  have s12ih : sepF inlineP headP g12 = true := headsOut_estF g11 s11hh
  have s12hh : sepF headP headP g12 = true := headsOut_sepHHF g11 s11hh
  have e12clean : anyElemF cleanQ g12 = false :=
    headsOut_presF cleanQ (fun _ _ _ _ => rfl) g11 e11clean
  have s13hl : sepF headP listP g13 = true := listsOut_estF g12
  have s13hh : sepF headP headP g13 = true :=
    listsOut_sepF headP headP (fun _ _ _ _ => rfl) (fun _ _ _ _ => rfl) g12 s12hh
  have s13ih : sepF inlineP headP g13 = true :=
    listsOut_sepF inlineP headP (fun _ _ _ _ => rfl) (fun _ _ _ _ => rfl) g12 s12ih
  have e13clean : anyElemF cleanQ g13 = false :=
    listsOut_presF cleanQ (fun _ _ _ _ => rfl) g12 e12clean
  have e14pds : anyElemF emptyPds g14 = false :=
    remIf_noSat2F emptyPds emptyPds_remIf g13
  have s14hh : sepF headP headP g14 = true :=
    remIf_sepF emptyPds headP headP (fun _ _ _ _ => rfl) (fun _ _ _ _ => rfl) g13 s13hh
  have s14ih : sepF inlineP headP g14 = true :=
    remIf_sepF emptyPds inlineP headP (fun _ _ _ _ => rfl) (fun _ _ _ _ => rfl) g13 s13ih
  have s14hl : sepF headP listP g14 = true :=
    remIf_sepF emptyPds headP listP (fun _ _ _ _ => rfl) (fun _ _ _ _ => rfl) g13 s13hl
  have e14clean : anyElemF cleanQ g14 = false :=
    remIf_presF emptyPds cleanQ (fun _ _ _ _ => rfl) g13 e13clean
  have e15bad : anyElemF attrsBadQ g15 = false := invalidFix_noSatF g14
  have e15clean : anyElemF cleanQ g15 = false :=
    attrMap_presF invalidAttrFix cleanQ
      (fun tg ats c h =>
        (cleanQ_invalidFix tg ats (attrMapF invalidAttrFix c) c).trans h) g14 e14clean
  have s15hh : sepF headP headP g15 = true :=
    attrMap_sepF invalidAttrFix headP headP
      (fun _ _ _ _ _ => rfl) (fun _ _ _ _ _ => rfl) g14 s14hh
  have s15ih : sepF inlineP headP g15 = true :=
    attrMap_sepF invalidAttrFix inlineP headP
      (fun _ _ _ _ _ => rfl) (fun _ _ _ _ _ => rfl) g14 s14ih
  have s15hl : sepF headP listP g15 = true :=
    attrMap_sepF invalidAttrFix headP listP
      (fun _ _ _ _ _ => rfl) (fun _ _ _ _ _ => rfl) g14 s14hl
  have e15pds : anyElemF emptyPds g15 = false :=
    attrMap_presF invalidAttrFix emptyPds
      (fun tg ats c h =>
        (emptyPds_attrMap invalidAttrFix tg ats (invalidAttrFix tg ats) c).trans h)
      g14 e14pds
  exact ⟨e15clean, s15hh, s15ih, s15hl, e15pds, e15bad⟩

/-- Under the six postconditions every pass of `clean_html` is the
identity. -/
theorem clean_html_fix (g : Forest)
    (h1 : anyElemF cleanQ g = false)
    (h2 : sepF headP headP g = true)
    (h3 : sepF inlineP headP g = true)
    (h4 : sepF headP listP g = true)
    (h5 : anyElemF emptyPds g = false)
    (h6 : anyElemF attrsBadQ g = false) :
    clean_html g = g := by
  have hsvg : anyElemF (isTagP "svg") g = false :=
    anyElem_impF cleanQ (isTagP "svg") (fun n h => by
      cases n with
      | text s => simp [isTagP] at h
      | elem tg ats c => simp [cleanQ, removedTagsQ, h]) g h1
  have hmath : anyElemF (isTagP "math") g = false :=
    anyElem_impF cleanQ (isTagP "math") (fun n h => by
      cases n with
      | text s => simp [isTagP] at h
      | elem tg ats c => simp [cleanQ, removedTagsQ, h]) g h1
  have hifr : anyElemF (isTagP "iframe") g = false :=
    anyElem_impF cleanQ (isTagP "iframe") (fun n h => by
      cases n with
      | text s => simp [isTagP] at h
      | elem tg ats c => simp [cleanQ, removedTagsQ, h]) g h1
  have hmed : anyElemF isMediaP g = false :=
    anyElem_impF cleanQ isMediaP (fun n h => by
      cases n with
      | text s => simp [isMediaP, isTagP] at h
      | elem tg ats c => simp [cleanQ, removedTagsQ, h]) g h1
  have hscr : anyElemF (isTagP "script") g = false :=
    anyElem_impF cleanQ (isTagP "script") (fun n h => by
      cases n with
      | text s => simp [isTagP] at h
      | elem tg ats c => simp [cleanQ, removedTagsQ, h]) g h1
  have hcds : anyElemF (isTagP "cds-code-snippet") g = false :=
    anyElem_impF cleanQ (isTagP "cds-code-snippet") (fun n h => by
      cases n with
      | text s => simp [isTagP] at h
      | elem tg ats c => simp [cleanQ, h]) g h1
  have htab : anyElemF badTableQ g = false :=
    anyElem_impF cleanQ badTableQ (fun n h => by
      cases n with
      | text s => simp [badTableQ] at h
      | elem tg ats c => simp [cleanQ, h]) g h1
  have hpic : anyElemF (isTagP "picture") g = false :=
    anyElem_impF cleanQ (isTagP "picture") (fun n h => by
      cases n with
      | text s => simp [isTagP] at h
      | elem tg ats c => simp [cleanQ, h]) g h1
  have himg : anyElemF badImg g = false :=
    anyElem_impF cleanQ badImg (fun n h => by
      cases n with
      | text s => simp [badImg] at h
      | elem tg ats c => simp [cleanQ, h]) g h1
  have hsty : anyElemF badStylesheet g = false :=
    anyElem_impF cleanQ badStylesheet (fun n h => by
      cases n with
      | text s => simp [badStylesheet] at h
      | elem tg ats c => simp [cleanQ, h]) g h1
  have hrsrc : anyElemF badRemoteSrc g = false :=
    anyElem_impF cleanQ badRemoteSrc (fun n h => by
      cases n with
      | text s => simp [badRemoteSrc] at h
      | elem tg ats c => simp [cleanQ, h]) g h1
  simp only [clean_html]
  rw [remIf_idF (isTagP "svg") (fun _ => rfl) g hsvg]
  rw [(mc_id (sizeF g + 1)).2 g hmath]
  rw [remIf_idF (isTagP "iframe") (fun _ => rfl) g hifr]
  rw [remIf_idF isMediaP (fun _ => rfl) g hmed]
  rw [remIf_idF (isTagP "script") (fun _ => rfl) g hscr]
  rw [codeSnippet_idF g hcds]
  rw [tableFix_idF g htab]
  rw [picClean_idF g hpic]
  rw [remIf_idF badImg (fun _ => rfl) g himg]
  rw [remIf_idF badStylesheet (fun _ => rfl) g hsty]
  rw [remIf_idF badRemoteSrc (fun _ => rfl) g hrsrc]
  rw [fixHead_idF g h2]
  rw [headsOut_idF g h3]
  rw [listsOut_idF g h4]
  rw [remIf_idF emptyPds (fun _ => rfl) g h5]
  rw [invalidFix_idF g h6]

/-- C4 (amended): on every fragment containing no `math` element,
`clean_html` is idempotent — a second application removes no further
elements, moves nothing and strips no further attributes.  (With MathML
present the empty-husk removal can cascade across applications, as the
recorded counterexample shows.) -/
theorem c4_amended (f : Forest) (hm : anyElemF (isTagP "math") f = false) :
    clean_html (clean_html f) = clean_html f := by
  obtain ⟨p1, p2, p3, p4, p5, p6⟩ := clean_html_post f hm
  exact clean_html_fix (clean_html f) p1 p2 p3 p4 p5 p6

/-- Witness for the amended C4 on a concrete math-free fragment. -/
theorem c4_amended_witness :
    anyElemF (isTagP "math")
      [Node.elem "div" [("class", "x")] [Node.text "hi"]] = false ∧
    clean_html (clean_html [Node.elem "div" [("class", "x")] [Node.text "hi"]]) =
      clean_html [Node.elem "div" [("class", "x")] [Node.text "hi"]] :=
  ⟨by decide, c4_amended [Node.elem "div" [("class", "x")] [Node.text "hi"]] (by decide)⟩

end IbmThink
